import Mathlib

/-!
# DreamMesh pipeline orchestrator: verification of the specification claims

This file contains a shallow embedding, in Lean 4, of the orchestration core of
the DreamMesh repository (`services/geminiService.ts` together with the app
component and the render stage component), and proofs/refutations of the frozen
claims about it.

Embedding conventions:
* TypeScript interfaces become Lean structures (`types.ts`).
* The stateful pipeline loops (`processComponent`, the assembly loop inside
  `runPipeline`) become pure state-passing functions.  Calls to the external
  generative / QC oracles and to the renderer are modelled as oracle
  parameters: a function from the attempt index to the outcome of that attempt.
* JavaScript object mutation on clones is modelled by value passing: the
  three.js `clone()` produces an independent deep copy, which in a pure value
  semantics is just the value itself.
* The recursive DFS in `sortComponentsTopologically` is modelled with an
  explicit fuel argument.  The fuel is chosen larger than the total number of
  ids mentioned by the plan; the lemmas below carry the (always satisfied)
  sufficiency hypothesis `flen st.temp + 1 ≤ fuel`, mirroring the fact that the
  JS recursion depth is bounded by the growth of the `tempVisited` set.
-/

/-! ## Data model (`types.ts`) -/

/-- `AppPhase` from `types.ts`. -/
inductive AppPhase where
  | IDLE | PLANNING | GENERATING | QC_ANALYSIS | FIXING | ASSEMBLING | COMPLETED | ERROR
deriving DecidableEq, Repr

/-- `ComponentPlan` from `types.ts`. -/
structure ComponentPlan where
  id : String
  name : String
  description : String
  geometryType : String
  materialType : String
  dependencies : List String
deriving DecidableEq, Repr

/-- `BuildPlan` from `types.ts`. -/
structure BuildPlan where
  overview : String
  components : List ComponentPlan
deriving DecidableEq, Repr

/-- `QCResult` from `types.ts` (`score` is a 0-100 integer quality signal). -/
structure QCResult where
  passed : Bool
  feedback : String
  score : Int
deriving DecidableEq, Repr

/-- The `status` field of `ComponentArtifact`. -/
inductive CompStatus where
  | PENDING | GENERATED | VERIFIED | FAILED
deriving DecidableEq, Repr

/-- `ComponentArtifact` from `types.ts`.  The optional `images` field is
initialised to `[]` by `runPipeline`, so it is modelled as a plain list. -/
structure ComponentArtifact where
  plan : ComponentPlan
  code : String
  status : CompStatus
  retryCount : Nat
  qcHistory : List QCResult
  errorLogs : List String
  images : List String
deriving DecidableEq, Repr

/-! ## Dependency Sequencer (`sortComponentsTopologically`) -/

/-- The three mutable collections of `sortComponentsTopologically`:
`visited`, `tempVisited` (both JS `Set`s, modelled as lists with membership)
and the output accumulator `sorted`. -/
structure VisitState where
  visited : List String
  temp : List String
  sorted : List ComponentPlan
deriving Repr

/-- All ids that can ever be passed to `visit`: the plan's component ids plus
every declared dependency id.  Used only to size the fuel. -/
def univIds (components : List ComponentPlan) : List String :=
  components.map (·.id) ++ components.flatMap (·.dependencies)

/-- Number of universe ids not yet in `temp`; the JS recursion depth bound. -/
def flen (components : List ComponentPlan) (temp : List String) : Nat :=
  ((univIds components).filter (fun i => !temp.contains i)).length

/-- The recursive `visit` closure of `sortComponentsTopologically`
(`geminiService.ts` / app component, lines 519-534 of the concatenated file):

```js
const visit = (nodeId) => {
  if (visited.has(nodeId)) return;
  if (tempVisited.has(nodeId)) return; // Cycle detected, skip
  tempVisited.add(nodeId);
  const node = components.find(c => c.id === nodeId);
  if (node) {
    if (node.dependencies) { node.dependencies.forEach(depId => visit(depId)); }
    visited.add(nodeId);
    sorted.push(node);
  }
};
```

The fuel argument only bounds the recursion depth; it is chosen large enough
that it is never exhausted (see the sufficiency hypotheses of the lemmas). -/
def visit (components : List ComponentPlan) : Nat → String → VisitState → VisitState
  | 0, _, st => st
  | fuel + 1, nodeId, st =>
    if st.visited.contains nodeId then st
    else if st.temp.contains nodeId then st
    else
      let st1 : VisitState := ⟨st.visited, nodeId :: st.temp, st.sorted⟩
      match components.find? (fun c => c.id == nodeId) with
      | some node =>
        let st2 := node.dependencies.foldl (fun s d => visit components fuel d s) st1
        ⟨nodeId :: st2.visited, st2.temp, st2.sorted ++ [node]⟩
      | none => st1
termination_by fuel _ _ => fuel

/-- `sortComponentsTopologically` (lines 514-539): DFS over the components in
input order, dependencies first; returns the accumulated `sorted` list. -/
def sortComponentsTopologically (components : List ComponentPlan) : List ComponentPlan :=
  let fuel := (univIds components).length + 1
  (components.foldl (fun st c => visit components fuel c.id st) ⟨[], [], []⟩).sorted

/-- The dependency edge relation declared by a plan: `a ⟶ b` when some plan
component with id `a` lists `b` among its dependencies. -/
def depEdge (comps : List ComponentPlan) (a b : String) : Prop :=
  ∃ c, c ∈ comps ∧ c.id = a ∧ b ∈ c.dependencies

/-- A plan's dependency graph is acyclic: no id reaches itself through a
nonempty chain of dependency edges. -/
def AcyclicDeps (comps : List ComponentPlan) : Prop :=
  ∀ a, ¬ Relation.TransGen (depEdge comps) a a

/-- Topological soundness of an output list: every dependency of an element
that resolves to a plan member occurs (as an id) strictly earlier. -/
def GoodSorted (comps : List ComponentPlan) (l : List ComponentPlan) : Prop :=
  ∀ pre x suf, l = pre ++ x :: suf → ∀ did ∈ x.dependencies,
    (∃ e, e ∈ comps ∧ e.id = did) → did ∈ pre.map (·.id)

/-- Invariant of the DFS state.  `A` is the set of ids on the current DFS path
above the calls under consideration (empty at top level): every id in
`tempVisited` is either fully processed (in `visited`), an ancestor on the
path, or dangling (resolving to no plan member). -/
structure SeqInv (comps : List ComponentPlan) (A : List String) (st : VisitState) : Prop where
  nodupSorted : (st.sorted.map (·.id)).Nodup
  sortedMem : ∀ x ∈ st.sorted, x ∈ comps
  sortedVisited : ∀ x ∈ st.sorted, x.id ∈ st.visited
  visitedSorted : ∀ v ∈ st.visited, ∃ x, x ∈ st.sorted ∧ x.id = v
  visitedTemp : ∀ v ∈ st.visited, v ∈ st.temp
  tempSplit : ∀ t ∈ st.temp, t ∈ st.visited ∨ t ∈ A ∨ ∀ x ∈ comps, x.id ≠ t

/-- What one (or a sequence of) `visit` call(s) guarantees relative to the
starting state: invariant preservation, monotonicity of the two id sets,
append-only growth of `sorted`, and the fact that freshly visited ids were not
on the path before (`newVis`). -/
structure SeqOut (comps : List ComponentPlan) (A : List String) (st r : VisitState) : Prop where
  inv : SeqInv comps A r
  visMono : ∀ v ∈ st.visited, v ∈ r.visited
  tempMono : ∀ t ∈ st.temp, t ∈ r.temp
  sortedExt : ∃ Δ, r.sorted = st.sorted ++ Δ
  newVis : ∀ v ∈ r.visited, v ∈ st.visited ∨ v ∉ st.temp

/-- Concrete component plans used by the witness theorems below.
`demoCycle` is a two-component plan with a dependency cycle and a dangling id;
`demoChain` is an acyclic plan where component "b" depends on component "a". -/
def demoA : ComponentPlan := ⟨"a", "Chassis", "the base", "BoxGeometry", "MeshStandardMaterial", ["b", "ghost"]⟩

def demoB : ComponentPlan := ⟨"b", "Wheel", "a wheel", "CylinderGeometry", "MeshStandardMaterial", ["a"]⟩

def demoCycle : List ComponentPlan := [demoA, demoB]

def chainA : ComponentPlan := ⟨"a", "Chassis", "the base", "BoxGeometry", "MeshStandardMaterial", []⟩

def chainB : ComponentPlan := ⟨"b", "Wheel", "a wheel", "CylinderGeometry", "MeshStandardMaterial", ["a"]⟩

def demoChain : List ComponentPlan := [chainB, chainA]

/-- The induction statement for a single `visit` call at a given fuel. -/
def PvisitA (comps : List ComponentPlan) (fuel : Nat) : Prop :=
  ∀ nodeId st A, flen comps st.temp + 1 ≤ fuel → SeqInv comps A st →
    SeqOut comps A st (visit comps fuel nodeId st) ∧
    ((∃ x, x ∈ comps ∧ x.id = nodeId) →
      nodeId ∈ (visit comps fuel nodeId st).visited ∨ nodeId ∈ A)

/-- Folding `visit` over a list of ids (the shape of both the inner
`forEach(depId => visit(depId))` and the outer `forEach(c => visit(c.id))`). -/
def foldVisit (comps : List ComponentPlan) (fuel : Nat) (ids : List String)
    (st : VisitState) : VisitState :=
  ids.foldl (fun s d => visit comps fuel d s) st

/-- The induction statement for topological soundness of a `visit` call: under
acyclicity, when every ancestor id in `A` reaches `nodeId` through dependency
edges, `visit` preserves `GoodSorted`. -/
def PvisitB (comps : List ComponentPlan) (fuel : Nat) : Prop :=
  ∀ nodeId st A, flen comps st.temp + 1 ≤ fuel → SeqInv comps A st →
    AcyclicDeps comps → (∀ a ∈ A, Relation.TransGen (depEdge comps) a nodeId) →
    GoodSorted comps st.sorted → GoodSorted comps (visit comps fuel nodeId st).sorted

/-! ## Sanitization (`sanitizeCode`, lines 470-478, and the identical
replacement chain inside `cleanCode`, lines 35-49)

The five JavaScript regex replacements are embedded as specialised matchers
over `List Char`.  Each matcher, applied at a position, returns the remainder
after the JS-preferred match (leftmost position; at a position, the
backtracking-preferred alternative).  A maximal-munch treatment of greedy
whitespace runs is used; it is equivalent to full backtracking here because a
shorter whitespace run only succeeds when the maximal one does (the skipped
whitespace is then consumed by a dot, which also accepts it unless it is a
newline — and a newline inside the run makes the shorter run fail too). -/

/-- The JavaScript regex whitespace class used by the replacement patterns. -/
def isWS (c : Char) : Bool :=
  c = ' ' || c = '\t' || c = '\n' || c = '\r' || c.toNat = 11 || c.toNat = 12 ||
  c.toNat = 0xa0 || c.toNat = 0x1680 || (0x2000 ≤ c.toNat && c.toNat ≤ 0x200a) ||
  c.toNat = 0x2028 || c.toNat = 0x2029 || c.toNat = 0x202f || c.toNat = 0x205f ||
  c.toNat = 0x3000 || c.toNat = 0xfeff

/-- Try to consume a literal character sequence. -/
def dropLit : List Char → List Char → Option (List Char)
  | [], s => some s
  | _ :: _, [] => none
  | l :: ls, c :: cs => if c = l then dropLit ls cs else none

/-- Maximal whitespace run: count and remainder. -/
def wsChomp : List Char → Nat × List Char
  | [] => (0, [])
  | c :: cs =>
    if isWS c then
      let r := wsChomp cs
      (r.1 + 1, r.2)
    else (0, c :: cs)

/-- Consume a nonempty maximal whitespace run (the regex `\s+`). -/
def ws1 (s : List Char) : Option (List Char) :=
  let r := wsChomp s
  if r.1 = 0 then none else some r.2

/-- The lazy tail `.*?;` — scan for the first semicolon, not crossing a
newline (the JS dot does not match a newline). -/
def scanSemi : List Char → Option (List Char)
  | [] => none
  | c :: cs => if c = ';' then some cs else if c = '\n' then none else scanSemi cs

/-- The fragment `.*?from\s+.*?;`: try the literal at the current position and
on failure extend the lazy dot-star by one non-newline character. -/
def scanFrom4 : List Char → Option (List Char)
  | [] => none
  | c :: cs =>
    match dropLit "from".toList (c :: cs) with
    | some r =>
      match ws1 r with
      | some r2 =>
        match scanSemi r2 with
        | some r3 => some r3
        | none => if c = '\n' then none else scanFrom4 cs
      | none => if c = '\n' then none else scanFrom4 cs
    | none => if c = '\n' then none else scanFrom4 cs

/-- The fragment `.*?from\s+.*?` with nothing after the trailing lazy dot-star
(it matches the empty string). -/
def scanFrom5 : List Char → Option (List Char)
  | [] => none
  | c :: cs =>
    match dropLit "from".toList (c :: cs) with
    | some r =>
      match ws1 r with
      | some r2 => some r2
      | none => if c = '\n' then none else scanFrom5 cs
    | none => if c = '\n' then none else scanFrom5 cs

/-- Pattern 1: `export\s+default\s+function` (replaced by `function`). -/
def matchP1 (s : List Char) : Option (List Char) := do
  let s1 ← dropLit "export".toList s
  let s2 ← ws1 s1
  let s3 ← dropLit "default".toList s2
  let s4 ← ws1 s3
  dropLit "function".toList s4

/-- Pattern 2: `export\s+default\s+` (removed). -/
def matchP2 (s : List Char) : Option (List Char) := do
  let s1 ← dropLit "export".toList s
  let s2 ← ws1 s1
  let s3 ← dropLit "default".toList s2
  ws1 s3

/-- Pattern 3: `export\s+` (removed). -/
def matchP3 (s : List Char) : Option (List Char) := do
  let s1 ← dropLit "export".toList s
  ws1 s1

/-- Pattern 4: `import\s+.*?from\s+.*?;` (removed). -/
def matchP4 (s : List Char) : Option (List Char) := do
  let s1 ← dropLit "import".toList s
  let s2 ← ws1 s1
  scanFrom4 s2

/-- Pattern 5: `import\s+.*?from\s+.*?` (removed). -/
def matchP5 (s : List Char) : Option (List Char) := do
  let s1 ← dropLit "import".toList s
  let s2 ← ws1 s1
  scanFrom5 s2

/-- `String.prototype.replace` with a `/g` regex: scan left to right over the
original text, replacing each non-overlapping match; replaced text is not
rescanned within the same pass.  The fuel is the input length; every match
consumes at least one character, so it is never exhausted. -/
def replaceScanF (m : List Char → Option (List Char)) (repl : List Char) :
    Nat → List Char → List Char
  | _, [] => []
  | 0, s => s
  | fuel + 1, c :: cs =>
    match m (c :: cs) with
    | some rest => repl ++ replaceScanF m repl fuel rest
    | none => c :: replaceScanF m repl fuel cs

/-- One whole-string replacement pass. -/
def applyRule (m : List Char → Option (List Char)) (repl : List Char)
    (s : List Char) : List Char :=
  replaceScanF m repl s.length s

/-- The sanitization chain shared by `sanitizeCode` (app component, lines
470-478) and the module-stripping stage of `cleanCode` (`geminiService.ts`,
lines 41-46): the five replacements applied in source order. -/
def sanitizePass (s : List Char) : List Char :=
  applyRule matchP5 []
    (applyRule matchP4 []
      (applyRule matchP3 []
        (applyRule matchP2 []
          (applyRule matchP1 "function".toList s))))

/-- `sanitizeCode` (lines 470-478). -/
def sanitizeCode (s : String) : String := String.mk (sanitizePass s.data)

/-- The sanitization stage of `cleanCode` (lines 41-46); the replacement chain
is textually identical to `sanitizeCode`. -/
def cleanCodeStrip (s : String) : String := String.mk (sanitizePass s.data)

/-- `pat` occurs at the head of `s`. -/
def beginsWith : List Char → List Char → Bool
  | [], _ => true
  | _ :: _, [] => false
  | p :: ps, c :: cs => c = p && beginsWith ps cs

/-- `pat` occurs as a contiguous subsequence of `s`. -/
def hasSub (pat : List Char) : List Char → Bool
  | [] => beginsWith pat []
  | c :: cs => beginsWith pat (c :: cs) || hasSub pat cs

/-! ## Attachment prompt (`generateAttachmentCode`, lines 238-325) -/

/-- JavaScript truthiness of an optional string (`undefined` and `""` are
falsy). -/
def truthy : Option String → Bool
  | none => false
  | some s => !s.isEmpty

/-- The user prompt built by `generateAttachmentCode` (lines 289-303).  The
`PREVIOUS ATTEMPT FAILED` block carrying the error context is appended only
when `previousCode && errorContext` is truthy. -/
def attachmentPrompt (overview partName partDescription : String)
    (previousCode errorContext : Option String) : String :=
  let base := "\n    Assembly Plan: " ++ overview ++
    "\n    Task: Attach \"" ++ partName ++ "\" (" ++ partDescription ++
    ") to the current model.\n    \n    CRITICAL: Look at the \x27PART TO ATTACH\x27 images provided below. \n    - Determine if the \x27part\x27 object is ALREADY a composite (e.g. a single mesh containing a Pair of Legs).\n    - If it is ALREADY a pair/group, DO NOT clone it multiple times. Just position it. \n    - If it is a single item (e.g. one wheel) and the plan requires multiple (e.g. 4 wheels), YOU MUST clone it.\n    \n    Write the \x27attach\x27 function.\n  "
  if truthy previousCode && truthy errorContext then
    base ++ "\n\nPREVIOUS ATTEMPT FAILED.\nFeedback: " ++ errorContext.getD "" ++
      "\n\nPrevious Code:\n" ++ previousCode.getD "" ++
      "\n\nFIX THE CODE. \n- Adjust coordinates, scale, or rotation based on the visual feedback."
  else base

/-! ## Constructed objects -/

/-- Components of a three.js transform; values are modelled as rationals
(the claims under verification do not depend on floating-point rounding). -/
abbrev V3 : Type := ℚ × ℚ × ℚ

def vadd (a b : V3) : V3 := (a.1 + b.1, a.2.1 + b.2.1, a.2.2 + b.2.2)

def vsub (a b : V3) : V3 := (a.1 - b.1, a.2.1 - b.2.1, a.2.2 - b.2.2)

/-- A renderable object tree: the structural state of a `THREE.Object3D`
(children plus local transform), which is what the commit step of the assembly
loop copies and what claim C2 quantifies over. -/
inductive Obj where
  | mk (children : List Obj) (position rotation scale : V3)

def Obj.children : Obj → List Obj
  | .mk c _ _ _ => c

def Obj.position : Obj → V3
  | .mk _ p _ _ => p

def Obj.rotation : Obj → V3
  | .mk _ _ r _ => r

def Obj.scale : Obj → V3
  | .mk _ _ _ s => s

/-! ## Component Verification Loop (`processComponent`, lines 737-820) -/

/-- The outcome of one generate → execute → QC attempt, as decided by the
external oracles and the sandbox: the generation call threw, the sandboxed
execution threw (after the generated code was stored), or the rendered object
reached visual QC with a verdict. -/
inductive AttemptOutcome where
  | genError (msg : String)
  | execError (code : String) (msg : String)
  | qcDone (code : String) (object : Obj) (snaps : List String) (result : QCResult)

/-- The initial artifact record built by `runPipeline` (lines 577-586). -/
def initArtifact (c : ComponentPlan) : ComponentArtifact :=
  ⟨c, "", .PENDING, 0, [], [], []⟩

/-- One iteration of the `while (!verified && retryCount < 4)` body of
`processComponent`: generation/fix, sandboxed execution, visual QC; errors are
caught, appended to `errorLogs`, and increment `retryCount`; a failed QC
verdict is unshifted onto `qcHistory` and increments `retryCount`; a passed
verdict stores the snapshots and yields the validated object. -/
def attemptStep (oracle : Nat → AttemptOutcome) (art : ComponentArtifact) :
    ComponentArtifact × Option Obj :=
  match oracle art.retryCount with
  | .genError msg =>
    ({ art with
        status := .FAILED
        retryCount := art.retryCount + 1
        errorLogs := art.errorLogs ++ ["Error: " ++ msg] }, none)
  | .execError code msg =>
    ({ art with
        code := code
        status := .FAILED
        retryCount := art.retryCount + 1
        errorLogs := art.errorLogs ++ ["Error: " ++ msg] }, none)
  | .qcDone code obj snaps res =>
    if res.passed then
      ({ art with
          code := code
          status := .VERIFIED
          qcHistory := res :: art.qcHistory
          images := snaps }, some obj)
    else
      ({ art with
          code := code
          status := .FAILED
          qcHistory := res :: art.qcHistory
          retryCount := art.retryCount + 1 }, none)

/-- The `while (!verified && retryCount < 4)` loop of `processComponent`
(lines 747-813).  The oracle is indexed by `retryCount`, which equals the
number of failed attempts so far. -/
def processLoop (oracle : Nat → AttemptOutcome) (art : ComponentArtifact) :
    ComponentArtifact × Option Obj :=
  if _h : art.retryCount < 4 then
    match oracle art.retryCount with
    | .genError msg =>
      processLoop oracle { art with
        status := .FAILED
        retryCount := art.retryCount + 1
        errorLogs := art.errorLogs ++ ["Error: " ++ msg] }
    | .execError code msg =>
      processLoop oracle { art with
        code := code
        status := .FAILED
        retryCount := art.retryCount + 1
        errorLogs := art.errorLogs ++ ["Error: " ++ msg] }
    | .qcDone code obj snaps res =>
      if res.passed then
        ({ art with
            code := code
            status := .VERIFIED
            qcHistory := res :: art.qcHistory
            images := snaps }, some obj)
      else
        processLoop oracle { art with
          code := code
          status := .FAILED
          qcHistory := res :: art.qcHistory
          retryCount := art.retryCount + 1 }
  else (art, none)
termination_by 4 - art.retryCount
decreasing_by all_goals (simp; omega)

/-- `processComponent` as seen by its caller: the loop result on success, and
the thrown `Failed to generate stable component ...` error on exhaustion
(lines 815-817). -/
def processComponent (oracle : Nat → AttemptOutcome) (art : ComponentArtifact) :
    Except String (ComponentArtifact × Obj) :=
  match processLoop oracle art with
  | (a, some o) => .ok (a, o)
  | (a, none) =>
    .error ("Failed to generate stable component " ++ a.plan.name ++ " after maximum retries.")

/-- The context-accumulator push guarded by `snapshots.length > 0`
(lines 795-797). -/
def headSnap : List String → List String
  | [] => []
  | x :: _ => [x]

/-- The component generation loop of `runPipeline` (lines 596-606): process
the plan's components in order, threading the context-image accumulator; each
entry records the artifact, the context list supplied to that component's
generation requests, and the validated object (when verified).  The first
failure aborts the loop with the error message that `runPipeline` catches. -/
def runComponentsGo (oracle : String → Nat → AttemptOutcome) (ctx : List String)
    (acc : List (ComponentArtifact × List String × Option Obj)) :
    List ComponentPlan → List (ComponentArtifact × List String × Option Obj) × Option String
  | [] => (acc, none)
  | c :: cs =>
    match processLoop (oracle c.id) (initArtifact c) with
    | (a, some o) =>
      runComponentsGo oracle (ctx ++ headSnap a.images) (acc ++ [(a, ctx, some o)]) cs
    | (a, none) =>
      (acc ++ [(a, ctx, none)],
        some ("Failed to generate stable component " ++ a.plan.name ++ " after maximum retries."))

def runComponents (oracle : String → Nat → AttemptOutcome) (comps : List ComponentPlan) :
    List (ComponentArtifact × List String × Option Obj) × Option String :=
  runComponentsGo oracle [] [] comps

/-! ## Incremental Assembly Loop (`runPipeline`, lines 608-728) -/

/-- Result of running generated attachment logic in the sandbox on the test
clone: it either ran to completion, leaving the mutated test root, or threw,
leaving the test clone in an arbitrary partially-mutated state. -/
inductive ExecResult where
  | ran (testRoot : Obj)
  | threw (msg : String) (damaged : Obj)

/-- One attachment attempt as decided by the external collaborators: the
effect of the generated `attach` code on (clones of) the current anchor and
the part, the assembly-QC verdict on the rendered draft, and the snapshot set
captured from the draft. -/
structure AttachAttempt where
  exec : Obj → Obj → ExecResult
  qc : QCResult
  snaps : List String

/-- The per-part mutable state of the assembly `while (!attached && retries < 4)`
loop: the committed anchor (`rootObject`), the running assembly snapshots, the
stage contents, and the loop locals.  `prompts` records the attachment-oracle
prompt built for each attempt (always with `previousCode = undefined`, as at
line 671). -/
structure LocalAsm where
  anchor : Obj
  snaps : List String
  stage : Obj
  attached : Bool
  errorContext : String
  retries : Nat
  prompts : List String

/-- One iteration of the attachment attempt loop (lines 662-717): generate
attachment code (the request prompt is recorded), reset the stage to a clone
of the anchor, execute on the clone; on a passed QC verdict commit the test
root's children/position/rotation/scale into the anchor and adopt the new
snapshots; otherwise record the feedback (or the execution error message) and
increment `retries`. -/
def attachStep (overview : String) (part : ComponentPlan) (partObj : Obj)
    (att : AttachAttempt) (s : LocalAsm) : LocalAsm :=
  let p := attachmentPrompt overview part.name part.description none (some s.errorContext)
  match att.exec s.anchor partObj with
  | .threw msg damaged =>
    { s with
        stage := damaged
        errorContext := "Attachment Execution Error: " ++ msg
        retries := s.retries + 1
        prompts := s.prompts ++ [p] }
  | .ran testRoot =>
    if att.qc.passed then
      { s with
          anchor := Obj.mk testRoot.children testRoot.position testRoot.rotation testRoot.scale
          stage := testRoot
          snaps := att.snaps
          attached := true
          prompts := s.prompts ++ [p] }
    else
      { s with
          stage := testRoot
          errorContext := att.qc.feedback
          retries := s.retries + 1
          prompts := s.prompts ++ [p] }

/-- The `while (!attached && retries < 4)` loop (line 662). -/
def attachLoop (overview : String) (part : ComponentPlan) (partObj : Obj)
    (atts : Nat → AttachAttempt) (s : LocalAsm) : LocalAsm :=
  if _h : s.attached = false ∧ s.retries < 4 then
    attachLoop overview part partObj atts (attachStep overview part partObj (atts s.retries) s)
  else s
termination_by (if s.attached then 0 else 1) + (4 - s.retries) * 2
decreasing_by
  obtain ⟨ha, hr⟩ := _h
  have hstep : ((attachStep overview part partObj (atts s.retries) s).attached = true ∧
        (attachStep overview part partObj (atts s.retries) s).retries = s.retries) ∨
      ((attachStep overview part partObj (atts s.retries) s).attached = s.attached ∧
        (attachStep overview part partObj (atts s.retries) s).retries = s.retries + 1) := by
    cases hx : (atts s.retries).exec s.anchor partObj with
    | ran t =>
      by_cases hp : (atts s.retries).qc.passed
      · left; simp [attachStep, hx, hp]
      · right; simp [attachStep, hx, hp]
    | threw msg damaged => right; simp [attachStep, hx]
  rcases hstep with ⟨h1, h2⟩ | ⟨h1, h2⟩ <;> (simp [h1, h2, ha]; try omega)

/-- The cross-part assembly state: the committed anchor (`rootObject`), the
running `currentAssemblySnapshots`, and the stage contents. -/
structure AsmGlobal where
  anchor : Obj
  snaps : List String
  stage : Obj

/-- Look up a processed component record by id (`pipelineComponents` together
with `validatedObjectsRef`). -/
def lookupArt (results : List (ComponentArtifact × List String × Option Obj))
    (i : String) : Option (ComponentArtifact × Option Obj) :=
  results.findSome? (fun r => if r.1.plan.id = i then some (r.1, r.2.2) else none)

def lookupObj (results : List (ComponentArtifact × List String × Option Obj))
    (i : String) : Option Obj :=
  match lookupArt results i with
  | some (_, some o) => some o
  | _ => none

/-- Processing of one part of `componentsToAttach` (lines 640-725): skip when
no record or not VERIFIED; otherwise run the attempt loop with fresh locals,
and if the part never attached, restore the stage to the committed anchor
(`resetScene(); addObject(rootObject)`). -/
def attachPart (overview : String) (attOracle : String → Nat → AttachAttempt)
    (results : List (ComponentArtifact × List String × Option Obj))
    (g : AsmGlobal) (part : ComponentPlan) : AsmGlobal :=
  match lookupArt results part.id with
  | none => g
  | some (art, obj?) =>
    if art.status = .VERIFIED then
      match obj? with
      | some obj =>
        let s1 := attachLoop overview part obj (attOracle part.id)
          ⟨g.anchor, g.snaps, g.stage, false, "", 0, []⟩
        if s1.attached then ⟨s1.anchor, s1.snaps, s1.stage⟩
        else ⟨s1.anchor, s1.snaps, s1.anchor⟩
      | none => g
    else g

/-- Final observable outcome of a `runPipeline` call. -/
structure PipelineResult where
  phase : AppPhase
  assemblyEntered : Bool
  results : List (ComponentArtifact × List String × Option Obj)
  finalAssembly : Option Obj

/-- The post-planning body of `runPipeline` (lines 568-735): the component
generation loop, then the step-by-step assembly phase.  A component loop
failure is caught by the surrounding try/catch, which sets the phase to
ERROR before the assembly phase is entered.  In the assembly phase the anchor
is the first sequenced component: its validated object is cloned and
recentered by the bounding-box center (`rootCenter`, computed by the render
stage from scene geometry and therefore a parameter here), and the remaining
parts are attached in sequence order.  `initialSnaps` is the snapshot set
captured from the freshly placed anchor. -/
def runPipelineModel (plan : BuildPlan) (compOracle : String → Nat → AttemptOutcome)
    (attOracle : String → Nat → AttachAttempt) (rootCenter : V3)
    (initialSnaps : List String) : PipelineResult :=
  match runComponents compOracle plan.components with
  | (results, some _msg) => ⟨.ERROR, false, results, none⟩
  | (results, none) =>
    match sortComponentsTopologically plan.components with
    | [] => ⟨.ERROR, true, results, none⟩
    | rootComp :: rest =>
      match lookupObj results rootComp.id with
      | none => ⟨.ERROR, true, results, none⟩
      | some obj0 =>
        let rootObject := Obj.mk obj0.children (vsub obj0.position rootCenter)
          obj0.rotation obj0.scale
        let g0 : AsmGlobal := ⟨rootObject, initialSnaps, rootObject⟩
        let gf := rest.foldl (attachPart plan.overview attOracle results) g0
        ⟨.COMPLETED, true, results, some gf.anchor⟩

/-! ## Render stage capture (`captureSnapshots`, `ThreeStage` component) -/

/-- The viewer state touched by `captureSnapshots`: camera position,
orbit-controls target, clipping planes, scene background color, and grid
visibility (plus whether a grid helper exists in the scene). -/
structure StageView where
  camPos : V3
  target : V3
  near : ℚ
  far : ℚ
  background : String
  gridExists : Bool
  gridVisible : Bool

/-- The state transformation of `captureSnapshots` (render-stage component,
lines 186-274 of the concatenated `types.ts` file).  The bounding-box center,
the derived camera distance, and the eight normalized corner offsets involve
scene geometry and irrational arithmetic computed by the render stage, so they
enter as parameters; the save / QC-setup / per-view mutation / restore
structure is embedded exactly.  The snapshot images themselves are produced by
the renderer and are not part of the viewer state. -/
def captureSnapshotsModel (positions : List V3) (center : V3) (cameraDistance : ℚ)
    (s : StageView) : StageView :=
  let originalPos := s.camPos
  let originalTarget := s.target
  let originalBackground := s.background
  let originalGridVisible := if s.gridExists then s.gridVisible else true
  let s1 := { s with
    background := "#ffffff"
    gridVisible := if s.gridExists then true else s.gridVisible }
  let s2 := positions.foldl
    (fun st offset =>
      { st with
          camPos := vadd center offset
          near := max (1/100 : ℚ) (cameraDistance / 100)
          far := max (1000 : ℚ) (cameraDistance * 10) }) s1
  let s3 := { s2 with
    background := originalBackground
    gridVisible := if s2.gridExists then originalGridVisible else s2.gridVisible }
  { s3 with
      camPos := originalPos
      target := originalTarget
      near := (1/10 : ℚ)
      far := (1000 : ℚ) }

/-! ## Failure predicates and witness fixtures -/

/-- A failing component attempt: the generation or sandboxed-execution call
threw, or the QC oracle rejected. -/
def failOut : AttemptOutcome → Prop
  | .genError _ => True
  | .execError _ _ => True
  | .qcDone _ _ _ res => res.passed = false

/-- A failing attachment attempt: the assembly-QC verdict is not passed, or
the sandboxed execution throws on whatever objects it receives. -/
def attachFails (att : AttachAttempt) : Prop :=
  att.qc.passed = false ∨ ∀ a b, ∃ m d, att.exec a b = .threw m d

def demoObj : Obj := Obj.mk [] (0, 0, 0) (0, 0, 0) (1, 1, 1)

def demoPartObj : Obj := Obj.mk [] (2, 0, 0) (0, 0, 0) (1, 1, 1)

def demoLocal : LocalAsm := ⟨demoObj, ["snap0"], demoObj, false, "", 0, []⟩

def passQC : QCResult := ⟨true, "ok", 90⟩

/-- An attachment attempt whose logic runs fine but whose QC verdict fails. -/
def failAttach : AttachAttempt :=
  ⟨fun a b => .ran (Obj.mk (b :: a.children) a.position a.rotation a.scale),
    ⟨false, "Part is floating in space", 20⟩, ["snapA"]⟩

def failAttachOracle : String → Nat → AttachAttempt := fun _ _ => failAttach

def failOracle : Nat → AttemptOutcome := fun _ => .genError "boom"

/-- A component oracle that verifies every component on the first attempt,
with per-component snapshots. -/
def goodCompOracle : String → Nat → AttemptOutcome :=
  fun i _ => .qcDone "code" demoObj ["img-" ++ i, "img2-" ++ i] passQC

/-- A component oracle under which component "a" verifies and every other
component fails all attempts. -/
def mixedOracle : String → Nat → AttemptOutcome :=
  fun i _ => if i = "a" then .qcDone "code" demoObj ["img"] passQC else .genError "boom"

def demoPlan : BuildPlan := ⟨"a demo model", [chainA, chainB]⟩

def demoStage : StageView := ⟨(5, 5, 5), (0, 0, 0), 1/10, 1000, "#111111", true, true⟩

/-! ## Lemmas: Dependency Sequencer -/

theorem contains_false_iff (l : List String) (a : String) : l.contains a = false ↔ a ∉ l := by
  rw [← Bool.not_eq_true]
  exact not_congr List.elem_iff

theorem length_filter_mono {α : Type} (l : List α) (p q : α → Bool)
    (h : ∀ a, p a = true → q a = true) : (l.filter p).length ≤ (l.filter q).length := by
  induction l with
  | nil => simp
  | cons x xs ih =>
    simp only [List.filter_cons]
    cases hp : p x with
    | true => rw [h x hp]; simpa using ih
    | false => cases hq : q x <;> simp <;> omega

theorem length_filter_lt {α : Type} (l : List α) (p q : α → Bool)
    (h : ∀ a, p a = true → q a = true) (a : α) (ha : a ∈ l) (hpa : p a = false)
    (hqa : q a = true) : (l.filter p).length < (l.filter q).length := by
  induction l with
  | nil => cases ha
  | cons x xs ih =>
    simp only [List.filter_cons]
    rcases List.mem_cons.mp ha with rfl | hmem
    · rw [hpa, hqa]
      simpa using Nat.lt_succ_of_le (length_filter_mono xs p q h)
    · cases hp : p x with
      | true => rw [h x hp]; simpa using ih hmem
      | false =>
        cases hq : q x with
        | true => have := ih hmem; simp; omega
        | false => simpa using ih hmem

theorem flen_le_of_subset (comps : List ComponentPlan) (t t' : List String)
    (h : ∀ x ∈ t, x ∈ t') : flen comps t' ≤ flen comps t := by
  apply length_filter_mono
  intro a hp
  simp only [Bool.not_eq_true'] at hp ⊢
  rw [contains_false_iff] at hp ⊢
  exact fun hm => hp (h a hm)

theorem flen_lt_cons (comps : List ComponentPlan) (t : List String) (a : String)
    (hu : a ∈ univIds comps) (hn : a ∉ t) : flen comps (a :: t) < flen comps t := by
  apply length_filter_lt _ _ _ ?_ a hu ?_ ?_
  · intro i hp
    simp only [Bool.not_eq_true'] at hp ⊢
    rw [contains_false_iff] at hp ⊢
    exact fun hm => hp (List.mem_cons_of_mem _ hm)
  · simp [List.elem_iff]
  · simp only [Bool.not_eq_true']
    rw [contains_false_iff]
    exact hn

theorem visit_succ_of_visited (comps : List ComponentPlan) (fuel : Nat) (nodeId : String)
    (st : VisitState) (h : nodeId ∈ st.visited) :
    visit comps (fuel + 1) nodeId st = st := by
  rw [visit]; simp [h]

theorem visit_succ_of_temp (comps : List ComponentPlan) (fuel : Nat) (nodeId : String)
    (st : VisitState) (h1 : nodeId ∉ st.visited)
    (h2 : nodeId ∈ st.temp) : visit comps (fuel + 1) nodeId st = st := by
  rw [visit]; simp [h1, h2]

theorem visit_succ_of_none (comps : List ComponentPlan) (fuel : Nat) (nodeId : String)
    (st : VisitState) (h1 : nodeId ∉ st.visited)
    (h2 : nodeId ∉ st.temp)
    (h3 : comps.find? (fun c => c.id == nodeId) = none) :
    visit comps (fuel + 1) nodeId st = ⟨st.visited, nodeId :: st.temp, st.sorted⟩ := by
  rw [visit]; simp [h1, h2, h3]

theorem visit_succ_of_some (comps : List ComponentPlan) (fuel : Nat) (nodeId : String)
    (st : VisitState) (node : ComponentPlan) (h1 : nodeId ∉ st.visited)
    (h2 : nodeId ∉ st.temp)
    (h3 : comps.find? (fun c => c.id == nodeId) = some node) :
    visit comps (fuel + 1) nodeId st =
      ⟨nodeId :: (foldVisit comps fuel node.dependencies
          ⟨st.visited, nodeId :: st.temp, st.sorted⟩).visited,
        (foldVisit comps fuel node.dependencies
          ⟨st.visited, nodeId :: st.temp, st.sorted⟩).temp,
        (foldVisit comps fuel node.dependencies
          ⟨st.visited, nodeId :: st.temp, st.sorted⟩).sorted ++ [node]⟩ := by
  rw [visit]; simp [h1, h2, h3, foldVisit]

theorem SeqOut.rfl (comps : List ComponentPlan) (A : List String) (st : VisitState)
    (h : SeqInv comps A st) : SeqOut comps A st st :=
  ⟨h, fun _ hv => hv, fun _ ht => ht, ⟨[], by simp⟩, fun _ hv => Or.inl hv⟩

theorem SeqOut.comp {comps : List ComponentPlan} {A : List String} {st mid r : VisitState}
    (h1 : SeqOut comps A st mid) (h2 : SeqOut comps A mid r) : SeqOut comps A st r := by
  refine ⟨h2.inv, fun v hv => h2.visMono v (h1.visMono v hv),
    fun t ht => h2.tempMono t (h1.tempMono t ht), ?_, ?_⟩
  · obtain ⟨d1, e1⟩ := h1.sortedExt
    obtain ⟨d2, e2⟩ := h2.sortedExt
    exact ⟨d1 ++ d2, by rw [e2, e1, List.append_assoc]⟩
  · intro v hv
    rcases h2.newVis v hv with h | h
    · exact h1.newVis v h
    · exact Or.inr fun hm => h (h1.tempMono v hm)

theorem listHelperA (comps : List ComponentPlan) (fuel : Nat) (hv : PvisitA comps fuel) :
    ∀ ids st A, flen comps st.temp + 1 ≤ fuel → SeqInv comps A st →
    SeqOut comps A st (foldVisit comps fuel ids st) ∧
    (∀ d ∈ ids, (∃ x, x ∈ comps ∧ x.id = d) →
      d ∈ (foldVisit comps fuel ids st).visited ∨ d ∈ A) := by
  intro ids
  induction ids with
  | nil =>
    intro st A hf hinv
    exact ⟨SeqOut.rfl comps A st hinv, by simp⟩
  | cons d ds ih =>
    intro st A hf hinv
    obtain ⟨hout, hres⟩ := hv d st A hf hinv
    have hfm : flen comps (visit comps fuel d st).temp + 1 ≤ fuel := by
      have := flen_le_of_subset comps st.temp (visit comps fuel d st).temp hout.tempMono
      omega
    obtain ⟨hout2, hres2⟩ := ih (visit comps fuel d st) A hfm hout.inv
    have hfold : foldVisit comps fuel (d :: ds) st =
        foldVisit comps fuel ds (visit comps fuel d st) := rfl
    rw [hfold]
    refine ⟨SeqOut.comp hout hout2, ?_⟩
    intro e he hex
    rcases List.mem_cons.mp he with rfl | he'
    · rcases hres hex with h | h
      · exact Or.inl (hout2.visMono e h)
      · exact Or.inr h
    · exact hres2 e he' hex

theorem mainA (comps : List ComponentPlan) : ∀ fuel, PvisitA comps fuel := by
  intro fuel
  induction fuel with
  | zero => intro nodeId st A hfuel _; omega
  | succ f ih =>
    intro nodeId st A hfuel hinv
    by_cases h1 : nodeId ∈ st.visited
    · rw [visit_succ_of_visited comps f nodeId st h1]
      exact ⟨SeqOut.rfl comps A st hinv, fun _ => Or.inl h1⟩
    · by_cases h2 : nodeId ∈ st.temp
      · rw [visit_succ_of_temp comps f nodeId st h1 h2]
        refine ⟨SeqOut.rfl comps A st hinv, ?_⟩
        rintro ⟨x, hx, hxid⟩
        rcases hinv.tempSplit nodeId h2 with h | h | h
        · exact Or.inl h
        · exact Or.inr h
        · exact absurd hxid (h x hx)
      · cases h3 : comps.find? (fun c => c.id == nodeId) with
        | none =>
          rw [visit_succ_of_none comps f nodeId st h1 h2 h3]
          have hdang : ∀ x ∈ comps, x.id ≠ nodeId := by
            intro x hx heq
            exact List.find?_eq_none.mp h3 x hx (beq_iff_eq.mpr heq)
          refine ⟨⟨?_, fun v hv => hv, fun t ht => List.mem_cons_of_mem _ ht,
            ⟨[], by simp⟩, fun v hv => Or.inl hv⟩, ?_⟩
          · refine ⟨hinv.nodupSorted, hinv.sortedMem, hinv.sortedVisited,
              hinv.visitedSorted, fun v hv => List.mem_cons_of_mem _ (hinv.visitedTemp v hv), ?_⟩
            intro t ht
            rcases List.mem_cons.mp ht with rfl | ht'
            · exact Or.inr (Or.inr hdang)
            · rcases hinv.tempSplit t ht' with h | h | h
              · exact Or.inl h
              · exact Or.inr (Or.inl h)
              · exact Or.inr (Or.inr h)
          · rintro ⟨x, hx, hxid⟩
            exact absurd hxid (hdang x hx)
        | some node =>
          rw [visit_succ_of_some comps f nodeId st node h1 h2 h3]
          have hmem : node ∈ comps := List.mem_of_find?_eq_some h3
          have hpb := List.find?_some h3
          have hid : node.id = nodeId := by simpa using hpb
          have hnuniv : nodeId ∈ univIds comps :=
            List.mem_append_left _ (hid ▸ List.mem_map_of_mem (·.id) hmem)
          have hinv1 : SeqInv comps (nodeId :: A) ⟨st.visited, nodeId :: st.temp, st.sorted⟩ := by
            refine ⟨hinv.nodupSorted, hinv.sortedMem, hinv.sortedVisited,
              hinv.visitedSorted, fun v hv => List.mem_cons_of_mem _ (hinv.visitedTemp v hv), ?_⟩
            intro t ht
            rcases List.mem_cons.mp ht with rfl | ht'
            · exact Or.inr (Or.inl (List.mem_cons_self _ _))
            · rcases hinv.tempSplit t ht' with h | h | h
              · exact Or.inl h
              · exact Or.inr (Or.inl (List.mem_cons_of_mem _ h))
              · exact Or.inr (Or.inr h)
          have hfuel1 : flen comps (nodeId :: st.temp) + 1 ≤ f := by
            have := flen_lt_cons comps st.temp nodeId hnuniv h2
            omega
          obtain ⟨hA, hres⟩ := listHelperA comps f ih node.dependencies
            ⟨st.visited, nodeId :: st.temp, st.sorted⟩ (nodeId :: A) hfuel1 hinv1
          set st2 := foldVisit comps f node.dependencies
            ⟨st.visited, nodeId :: st.temp, st.sorted⟩ with hst2
          have hnotvis2 : nodeId ∉ st2.visited := by
            intro hvm
            rcases hA.newVis nodeId hvm with h | h
            · exact h1 h
            · exact h (List.mem_cons_self _ _)
          have htemp2 : nodeId ∈ st2.temp := hA.tempMono nodeId (List.mem_cons_self _ _)
          refine ⟨⟨?_, ?_, ?_, ?_, ?_⟩, fun _ => Or.inl (List.mem_cons_self _ _)⟩
          · -- SeqInv comps A for the final state
            refine ⟨?_, ?_, ?_, ?_, ?_, ?_⟩
            · -- nodupSorted
              simp only [List.map_append, List.map_cons, List.map_nil]
              rw [List.nodup_middle]
              simp only [List.append_nil]
              refine List.Nodup.cons ?_ hA.inv.nodupSorted
              intro hcon
              obtain ⟨x, hx, hxid⟩ := List.mem_map.mp hcon
              have := hA.inv.sortedVisited x hx
              rw [hxid, hid] at this
              exact hnotvis2 this
            · -- sortedMem
              intro x hx
              rcases List.mem_append.mp hx with h | h
              · exact hA.inv.sortedMem x h
              · rw [List.mem_singleton.mp h]; exact hmem
            · -- sortedVisited
              intro x hx
              rcases List.mem_append.mp hx with h | h
              · exact List.mem_cons_of_mem _ (hA.inv.sortedVisited x h)
              · rw [List.mem_singleton.mp h, hid]; exact List.mem_cons_self _ _
            · -- visitedSorted
              intro v hv
              rcases List.mem_cons.mp hv with rfl | hv'
              · exact ⟨node, List.mem_append_right _ (List.mem_singleton_self _), hid⟩
              · obtain ⟨x, hx, hxid⟩ := hA.inv.visitedSorted v hv'
                exact ⟨x, List.mem_append_left _ hx, hxid⟩
            · -- visitedTemp
              intro v hv
              rcases List.mem_cons.mp hv with rfl | hv'
              · exact htemp2
              · exact hA.inv.visitedTemp v hv'
            · -- tempSplit
              intro t ht
              rcases hA.inv.tempSplit t ht with h | h | h
              · exact Or.inl (List.mem_cons_of_mem _ h)
              · rcases List.mem_cons.mp h with rfl | h'
                · exact Or.inl (List.mem_cons_self _ _)
                · exact Or.inr (Or.inl h')
              · exact Or.inr (Or.inr h)
          · -- visMono
            exact fun v hv => List.mem_cons_of_mem _ (hA.visMono v hv)
          · -- tempMono
            exact fun t ht => hA.tempMono t (List.mem_cons_of_mem _ ht)
          · -- sortedExt
            obtain ⟨Δ, hΔ⟩ := hA.sortedExt
            exact ⟨Δ ++ [node], by simp only [hΔ]; rw [List.append_assoc]⟩
          · -- newVis
            intro v hv
            rcases List.mem_cons.mp hv with rfl | hv'
            · exact Or.inr h2
            · rcases hA.newVis v hv' with h | h
              · exact Or.inl h
              · exact Or.inr fun hm => h (List.mem_cons_of_mem _ hm)

theorem append_singleton_eq_append_cons {α : Type} (l : List α) (n : α) (pre : List α)
    (x : α) (suf : List α) (h : l ++ [n] = pre ++ x :: suf) :
    (pre = l ∧ x = n ∧ suf = []) ∨ ∃ suf', suf = suf' ++ [n] ∧ l = pre ++ x :: suf' := by
  rcases List.eq_nil_or_concat suf with rfl | ⟨suf', a, rfl⟩
  · left
    obtain ⟨h1, h2⟩ := List.append_inj' h (by simp)
    simp at h2
    exact ⟨h1.symm, h2.symm, rfl⟩
  · right
    have h' : l ++ [n] = (pre ++ x :: suf') ++ [a] := by
      rw [h]; simp
    obtain ⟨h1, h2⟩ := List.append_inj' h' (by simp)
    simp at h2
    exact ⟨suf', by rw [h2]; exact List.concat_eq_append _ _, h1⟩

theorem listHelperB (comps : List ComponentPlan) (fuel : Nat) (hva : PvisitA comps fuel)
    (hvb : PvisitB comps fuel) :
    ∀ ids st A, flen comps st.temp + 1 ≤ fuel → SeqInv comps A st →
    AcyclicDeps comps →
    (∀ d ∈ ids, ∀ a ∈ A, Relation.TransGen (depEdge comps) a d) →
    GoodSorted comps st.sorted →
    GoodSorted comps (foldVisit comps fuel ids st).sorted := by
  intro ids
  induction ids with
  | nil => intro st A _ _ _ _ hgs; exact hgs
  | cons d ds ih =>
    intro st A hf hinv hacyc hanc hgs
    obtain ⟨hout, _⟩ := hva d st A hf hinv
    have hgs1 : GoodSorted comps (visit comps fuel d st).sorted :=
      hvb d st A hf hinv hacyc (fun a ha => hanc d (List.mem_cons_self _ _) a ha) hgs
    have hfm : flen comps (visit comps fuel d st).temp + 1 ≤ fuel := by
      have := flen_le_of_subset comps st.temp (visit comps fuel d st).temp hout.tempMono
      omega
    exact ih (visit comps fuel d st) A hfm hout.inv hacyc
      (fun e he a ha => hanc e (List.mem_cons_of_mem _ he) a ha) hgs1

theorem mainB (comps : List ComponentPlan) : ∀ fuel, PvisitB comps fuel := by
  intro fuel
  induction fuel with
  | zero => intro nodeId st A hfuel _; omega
  | succ f ih =>
    intro nodeId st A hfuel hinv hacyc hanc hgs
    by_cases h1 : nodeId ∈ st.visited
    · rw [visit_succ_of_visited comps f nodeId st h1]; exact hgs
    · by_cases h2 : nodeId ∈ st.temp
      · rw [visit_succ_of_temp comps f nodeId st h1 h2]; exact hgs
      · cases h3 : comps.find? (fun c => c.id == nodeId) with
        | none => rw [visit_succ_of_none comps f nodeId st h1 h2 h3]; exact hgs
        | some node =>
          rw [visit_succ_of_some comps f nodeId st node h1 h2 h3]
          have hmem : node ∈ comps := List.mem_of_find?_eq_some h3
          have hpb := List.find?_some h3
          have hid : node.id = nodeId := by simpa using hpb
          have hnuniv : nodeId ∈ univIds comps :=
            List.mem_append_left _ (hid ▸ List.mem_map_of_mem (·.id) hmem)
          have hinv1 : SeqInv comps (nodeId :: A) ⟨st.visited, nodeId :: st.temp, st.sorted⟩ := by
            refine ⟨hinv.nodupSorted, hinv.sortedMem, hinv.sortedVisited,
              hinv.visitedSorted, fun v hv => List.mem_cons_of_mem _ (hinv.visitedTemp v hv), ?_⟩
            intro t ht
            rcases List.mem_cons.mp ht with rfl | ht'
            · exact Or.inr (Or.inl (List.mem_cons_self _ _))
            · rcases hinv.tempSplit t ht' with h | h | h
              · exact Or.inl h
              · exact Or.inr (Or.inl (List.mem_cons_of_mem _ h))
              · exact Or.inr (Or.inr h)
          have hfuel1 : flen comps (nodeId :: st.temp) + 1 ≤ f := by
            have := flen_lt_cons comps st.temp nodeId hnuniv h2
            omega
          have hanc1 : ∀ d ∈ node.dependencies, ∀ a ∈ nodeId :: A,
              Relation.TransGen (depEdge comps) a d := by
            intro d hd a ha
            rcases List.mem_cons.mp ha with rfl | ha'
            · exact Relation.TransGen.single ⟨node, hmem, hid, hd⟩
            · exact Relation.TransGen.tail (hanc a ha') ⟨node, hmem, hid, hd⟩
          obtain ⟨hA, hres⟩ := listHelperA comps f (mainA comps f) node.dependencies
            ⟨st.visited, nodeId :: st.temp, st.sorted⟩ (nodeId :: A) hfuel1 hinv1
          have hgs2 : GoodSorted comps (foldVisit comps f node.dependencies
              ⟨st.visited, nodeId :: st.temp, st.sorted⟩).sorted :=
            listHelperB comps f (mainA comps f) ih node.dependencies
              ⟨st.visited, nodeId :: st.temp, st.sorted⟩ (nodeId :: A) hfuel1 hinv1 hacyc hanc1 hgs
          set st2 := foldVisit comps f node.dependencies
            ⟨st.visited, nodeId :: st.temp, st.sorted⟩ with hst2
          intro pre x suf heq did hdid hex
          rcases append_singleton_eq_append_cons st2.sorted node pre x suf heq with
            ⟨hpre, hx, _⟩ | ⟨suf', _, hsplit⟩
          · rw [hpre]
            rw [hx] at hdid
            rcases hres did hdid hex with hvis | hA'
            · obtain ⟨y, hy, hyid⟩ := hA.inv.visitedSorted did hvis
              exact List.mem_map.mpr ⟨y, hy, hyid⟩
            · rcases List.mem_cons.mp hA' with rfl | hInA
              · exact absurd (Relation.TransGen.single (show depEdge comps did did from
                  ⟨node, hmem, hid, hdid⟩)) (hacyc did)
              · exact absurd (Relation.TransGen.tail (hanc did hInA) ⟨node, hmem, hid, hdid⟩)
                  (hacyc did)
          · exact hgs2 pre x suf' hsplit did hdid hex

theorem topo_fold_eq (comps : List ComponentPlan) :
    sortComponentsTopologically comps =
      (foldVisit comps ((univIds comps).length + 1) (comps.map (·.id)) ⟨[], [], []⟩).sorted := by
  rw [sortComponentsTopologically, foldVisit, List.foldl_map]

theorem flen_nil (comps : List ComponentPlan) : flen comps [] = (univIds comps).length := by
  simp [flen]

theorem seqInv_init (comps : List ComponentPlan) : SeqInv comps [] ⟨[], [], []⟩ := by
  constructor <;> simp

theorem topo_inv (comps : List ComponentPlan) :
    SeqInv comps []
        (foldVisit comps ((univIds comps).length + 1) (comps.map (·.id)) ⟨[], [], []⟩) ∧
      ∀ c ∈ comps, c.id ∈
        (foldVisit comps ((univIds comps).length + 1) (comps.map (·.id)) ⟨[], [], []⟩).visited := by
  have hf : flen comps (VisitState.mk [] [] []).temp + 1 ≤ (univIds comps).length + 1 := by
    rw [show (VisitState.mk [] [] []).temp = [] from rfl, flen_nil]
  obtain ⟨hout, hres⟩ := listHelperA comps ((univIds comps).length + 1)
    (mainA comps _) (comps.map (·.id)) ⟨[], [], []⟩ [] hf (seqInv_init comps)
  refine ⟨hout.inv, fun c hc => ?_⟩
  rcases hres c.id (List.mem_map_of_mem (·.id) hc) ⟨c, hc, rfl⟩ with h | h
  · exact h
  · simp at h

theorem topo_gs (comps : List ComponentPlan) (hacyc : AcyclicDeps comps) :
    GoodSorted comps
      (foldVisit comps ((univIds comps).length + 1) (comps.map (·.id)) ⟨[], [], []⟩).sorted := by
  have hf : flen comps (VisitState.mk [] [] []).temp + 1 ≤ (univIds comps).length + 1 := by
    rw [show (VisitState.mk [] [] []).temp = [] from rfl, flen_nil]
  refine listHelperB comps ((univIds comps).length + 1) (mainA comps _) (mainB comps _)
    (comps.map (·.id)) ⟨[], [], []⟩ [] hf (seqInv_init comps) hacyc (by simp) ?_
  intro pre x suf heq
  exact absurd heq.symm (by simp)

theorem id_inj (comps : List ComponentPlan) (hnodup : (comps.map (·.id)).Nodup)
    {x y : ComponentPlan} (hx : x ∈ comps) (hy : y ∈ comps) (h : x.id = y.id) : x = y :=
  List.inj_on_of_nodup_map hnodup hx hy h

theorem mem_topo_of_mem (comps : List ComponentPlan) (hnodup : (comps.map (·.id)).Nodup)
    (c : ComponentPlan) (hc : c ∈ comps) : c ∈ sortComponentsTopologically comps := by
  obtain ⟨hinv, hall⟩ := topo_inv comps
  obtain ⟨x, hx, hxid⟩ := hinv.visitedSorted c.id (hall c hc)
  rw [topo_fold_eq]
  have : x = c := id_inj comps hnodup (hinv.sortedMem x hx) hc hxid
  rwa [← this]

/-- Claim C4: for every component list with unique ids (cyclic or dangling
dependency edges included), `sortComponentsTopologically` terminates and its
output contains every input component exactly once (and only input
components).  Termination is inherent: the embedding is a total function whose
fuel the preceding lemmas show to be sufficient. -/
theorem c4_sequencer_tolerance (comps : List ComponentPlan)
    (hnodup : (comps.map (·.id)).Nodup) :
    (∀ c ∈ comps, (sortComponentsTopologically comps).count c = 1) ∧
      ∀ x ∈ sortComponentsTopologically comps, x ∈ comps := by
  obtain ⟨hinv, _⟩ := topo_inv comps
  have hnodupSorted : (sortComponentsTopologically comps).Nodup := by
    rw [topo_fold_eq]
    exact List.Nodup.of_map _ hinv.nodupSorted
  refine ⟨fun c hc => ?_, fun x hx => ?_⟩
  · exact List.count_eq_one_of_mem hnodupSorted (mem_topo_of_mem comps hnodup c hc)
  · rw [topo_fold_eq] at hx
    exact hinv.sortedMem x hx

/-- Claim C4 witness: the concrete cyclic plan `demoCycle` (component "a"
depends on "b", "b" depends on "a", plus a dangling dependency "ghost")
satisfies the hypotheses and the conclusion of `c4_sequencer_tolerance`. -/
theorem c4_sequencer_tolerance_witness :
    (demoCycle.map (·.id)).Nodup ∧
      ((∀ c ∈ demoCycle, (sortComponentsTopologically demoCycle).count c = 1) ∧
        ∀ x ∈ sortComponentsTopologically demoCycle, x ∈ demoCycle) :=
  ⟨by decide, c4_sequencer_tolerance demoCycle (by decide)⟩

/-- Claim C3: for an acyclic plan (with the data-model invariant of unique
ids), whenever component `d`'s id is among component `c`'s dependencies, `d`
appears strictly earlier than `c` in the output of
`sortComponentsTopologically`. -/
theorem c3_sequencer_ordering (comps : List ComponentPlan)
    (hnodup : (comps.map (·.id)).Nodup) (hacyc : AcyclicDeps comps)
    (c d : ComponentPlan) (hc : c ∈ comps) (hd : d ∈ comps)
    (hdep : d.id ∈ c.dependencies) :
    (sortComponentsTopologically comps).indexOf d <
      (sortComponentsTopologically comps).indexOf c := by
  obtain ⟨hinv, _⟩ := topo_inv comps
  have hfe := topo_fold_eq comps
  have hcout : c ∈ sortComponentsTopologically comps := mem_topo_of_mem comps hnodup c hc
  have hnd : (sortComponentsTopologically comps).Nodup := by
    rw [hfe]; exact List.Nodup.of_map _ hinv.nodupSorted
  obtain ⟨pre, suf, hsplit⟩ := List.append_of_mem hcout
  have hgs' : GoodSorted comps (sortComponentsTopologically comps) := by
    rw [hfe]; exact topo_gs comps hacyc
  have hdid : d.id ∈ pre.map (·.id) := hgs' pre c suf hsplit d.id hdep ⟨d, hd, rfl⟩
  obtain ⟨d', hd'pre, hd'id⟩ := List.mem_map.mp hdid
  have hd'mem : d' ∈ comps := by
    have hmem : d' ∈ sortComponentsTopologically comps := by
      rw [hsplit]; exact List.mem_append_left _ hd'pre
    rw [hfe] at hmem
    exact hinv.sortedMem d' hmem
  have hdd : d' = d := id_inj comps hnodup hd'mem hd hd'id
  have hdpre : d ∈ pre := hdd ▸ hd'pre
  have hcnot : c ∉ pre := by
    rw [hsplit] at hnd
    have h2 := (List.nodup_cons.mp (List.nodup_middle.mp hnd)).1
    exact fun hm => h2 (List.mem_append_left _ hm)
  rw [hsplit, List.indexOf_append_of_mem hdpre, List.indexOf_append_of_not_mem hcnot,
    List.indexOf_cons_self]
  have := List.indexOf_lt_length.mpr hdpre
  omega

/-- Claim C3 witness: the concrete acyclic plan `demoChain` ("Wheel" depends
on "Chassis") satisfies unique ids, acyclicity, and the ordering conclusion of
`c3_sequencer_ordering`. -/
theorem c3_sequencer_ordering_witness :
    (demoChain.map (·.id)).Nodup ∧ chainB ∈ demoChain ∧ chainA ∈ demoChain ∧
      chainA.id ∈ chainB.dependencies ∧
      (sortComponentsTopologically demoChain).indexOf chainA <
        (sortComponentsTopologically demoChain).indexOf chainB := by
  have hedge : ∀ x y, depEdge demoChain x y → x = "b" ∧ y = "a" := by
    rintro x y ⟨comp, hcm, hid, hdp⟩
    rcases List.mem_cons.mp hcm with rfl | hcm'
    · refine ⟨hid ▸ rfl, ?_⟩
      simpa [chainB] using hdp
    · rcases List.mem_cons.mp hcm' with rfl | hcm''
      · exact absurd hdp (by simp [chainA])
      · exact absurd hcm'' (by simp)
  have hacyc : AcyclicDeps demoChain := by
    intro a hTG
    obtain ⟨b, hab, hba⟩ := (Relation.TransGen.head'_iff).mp hTG
    obtain ⟨ha, hb⟩ := hedge a b hab
    rcases Relation.ReflTransGen.cases_head hba with heq | ⟨e, hbe, _⟩
    · rw [ha, hb] at heq; exact absurd heq (by decide)
    · obtain ⟨hb', _⟩ := hedge b e hbe
      rw [hb] at hb'; exact absurd hb' (by decide)
  refine ⟨by decide, by decide, by decide, by decide, ?_⟩
  exact c3_sequencer_ordering demoChain (by decide) hacyc chainB chainA
    (by decide) (by decide) (by decide)

/-! ## Lemmas: Sanitization -/

theorem replaceScan_id (m : List Char → Option (List Char)) (repl : List Char)
    (fuel : Nat) (s : List Char) (h : ∀ n, m (s.drop n) = none) :
    replaceScanF m repl fuel s = s := by
  induction s generalizing fuel with
  | nil => cases fuel <;> rfl
  | cons c cs ih =>
    cases fuel with
    | zero => rfl
    | succ f =>
      have h0 := h 0
      simp only [List.drop_zero] at h0
      simp only [replaceScanF, h0]
      exact congrArg (c :: ·) (ih f (fun n => by simpa using h (n + 1)))

theorem applyRule_id (m : List Char → Option (List Char)) (repl : List Char)
    (s : List Char) (h : ∀ n, m (s.drop n) = none) : applyRule m repl s = s :=
  replaceScan_id m repl s.length s h

theorem dropLit_beginsWith (lit : List Char) (s r : List Char)
    (h : dropLit lit s = some r) : beginsWith lit s = true := by
  induction lit generalizing s r with
  | nil => simp [beginsWith]
  | cons l ls ih =>
    cases s with
    | nil => simp [dropLit] at h
    | cons c cs =>
      simp only [dropLit] at h
      by_cases hc : c = l
      · rw [if_pos hc] at h
        simp [beginsWith, hc]
        exact ih cs r h
      · rw [if_neg hc] at h
        cases h

theorem bind_dropLit_beginsWith (lit : List Char) (k : List Char → Option (List Char))
    (s r : List Char) (h : (dropLit lit s).bind k = some r) : beginsWith lit s = true := by
  cases hd : dropLit lit s with
  | none => rw [hd] at h; cases h
  | some t => exact dropLit_beginsWith lit s t hd

theorem matchP1_beginsWith (s r : List Char) (h : matchP1 s = some r) :
    beginsWith "export".toList s = true :=
  bind_dropLit_beginsWith _ _ s r h

theorem matchP2_beginsWith (s r : List Char) (h : matchP2 s = some r) :
    beginsWith "export".toList s = true :=
  bind_dropLit_beginsWith _ _ s r h

theorem matchP3_beginsWith (s r : List Char) (h : matchP3 s = some r) :
    beginsWith "export".toList s = true :=
  bind_dropLit_beginsWith _ _ s r h

theorem matchP4_beginsWith (s r : List Char) (h : matchP4 s = some r) :
    beginsWith "import".toList s = true :=
  bind_dropLit_beginsWith _ _ s r h

theorem matchP5_beginsWith (s r : List Char) (h : matchP5 s = some r) :
    beginsWith "import".toList s = true :=
  bind_dropLit_beginsWith _ _ s r h

theorem beginsWith_drop_hasSub (pat s : List Char) (n : Nat)
    (h : beginsWith pat (s.drop n) = true) : hasSub pat s = true := by
  induction s generalizing n with
  | nil => cases n <;> simpa [hasSub] using h
  | cons c cs ih =>
    cases n with
    | zero => simp only [List.drop_zero] at h; simp [hasSub, h]
    | succ m =>
      have := ih m (by simpa using h)
      simp [hasSub, this]

theorem no_fire_of_no_sub (pat : List Char)
    (m : List Char → Option (List Char))
    (hm : ∀ s r, m s = some r → beginsWith pat s = true)
    (s : List Char) (h : hasSub pat s = false) : ∀ n, m (s.drop n) = none := by
  intro n
  cases hx : m (s.drop n) with
  | none => rfl
  | some r =>
    have := beginsWith_drop_hasSub pat s n (hm _ r hx)
    rw [h] at this
    cases this

theorem sanitizePass_id (s : List Char)
    (hexp : hasSub "export".toList s = false)
    (himp : hasSub "import".toList s = false) : sanitizePass s = s := by
  rw [sanitizePass,
    applyRule_id _ _ s (no_fire_of_no_sub _ matchP1 matchP1_beginsWith s hexp),
    applyRule_id _ _ s (no_fire_of_no_sub _ matchP2 matchP2_beginsWith s hexp),
    applyRule_id _ _ s (no_fire_of_no_sub _ matchP3 matchP3_beginsWith s hexp),
    applyRule_id _ _ s (no_fire_of_no_sub _ matchP4 matchP4_beginsWith s himp),
    applyRule_id _ _ s (no_fire_of_no_sub _ matchP5 matchP5_beginsWith s himp)]

theorem sanitizeCode_id (s : String)
    (hexp : hasSub "export".toList s.data = false)
    (himp : hasSub "import".toList s.data = false) : sanitizeCode s = s := by
  rw [sanitizeCode, sanitizePass_id s.data hexp himp]

/-- Claim C5 counterexample: sanitization is not idempotent on arbitrary text.
On `"exporexport t "` one pass yields `"export "` (removing the inner
`export\s+` match re-joins the surrounding characters into a fresh match) and
a second pass yields `""`; the same holds for the identical replacement chain
inside `cleanCode`. -/
theorem c5_sanitize_counterexample :
    sanitizeCode (sanitizeCode "exporexport t ") ≠ sanitizeCode "exporexport t " ∧
      cleanCodeStrip (cleanCodeStrip "exporexport t ") ≠ cleanCodeStrip "exporexport t " := by
  constructor <;> decide

/-- Claim C5 (amended): the sanitization chain of `sanitizeCode` (and the
identical chain inside `cleanCode`) is idempotent at every input whose
one-pass output contains neither `"export"` nor `"import"` as a substring:
no replacement rule can fire on such an output, so a second pass leaves it
fixed.  On arbitrary text idempotence fails (`c5_sanitize_counterexample`),
and a replacement can splice fresh matches of either keyword, so both
keywords must be absent from the one-pass output for the second pass to be
inert. -/
theorem c5_sanitize_idempotent_amended (s : String)
    (hexp : hasSub "export".toList (sanitizeCode s).data = false)
    (himp : hasSub "import".toList (sanitizeCode s).data = false) :
    sanitizeCode (sanitizeCode s) = sanitizeCode s ∧
      cleanCodeStrip (cleanCodeStrip s) = cleanCodeStrip s := by
  have hid : sanitizeCode (sanitizeCode s) = sanitizeCode s :=
    sanitizeCode_id (sanitizeCode s) hexp himp
  exact ⟨hid, hid⟩

/-- Claim C5 witness: on `"export const x = 1;"` one pass strips the
`export` keyword, the output is free of both keywords, and a second pass of
`sanitizeCode` (and of the `cleanCode` chain) is inert, as
`c5_sanitize_idempotent_amended` concludes. -/
theorem c5_sanitize_idempotent_amended_witness :
    hasSub "export".toList (sanitizeCode "export const x = 1;").data = false ∧
      hasSub "import".toList (sanitizeCode "export const x = 1;").data = false ∧
      (sanitizeCode (sanitizeCode "export const x = 1;") =
          sanitizeCode "export const x = 1;" ∧
        cleanCodeStrip (cleanCodeStrip "export const x = 1;") =
          cleanCodeStrip "export const x = 1;") :=
  ⟨by decide, by decide,
    c5_sanitize_idempotent_amended "export const x = 1;" (by decide) (by decide)⟩

/-! ## Lemmas: attachment prompt and commit atomicity -/

theorem Obj.eta (o : Obj) : Obj.mk o.children o.position o.rotation o.scale = o := by
  cases o; rfl

/-- Claim C1 (code bug): the attachment-generation request of a retry attempt
does not contain the previous attempt's QC feedback.  `generateAttachmentCode`
appends the `PREVIOUS ATTEMPT FAILED` block only when **both** `previousCode`
and `errorContext` are truthy, and `runPipeline` (line 671) always passes
`undefined` for `previousCode` — even though its inline comment says "we pass
error context" and the spec says the feedback is threaded into the next
attempt.  First conjunct: with `previousCode = undefined` the prompt ignores
the error context entirely.  Second conjunct: consequently every attempt of
the assembly loop issues the feedback-free base prompt, whatever the recorded
`errorContext` is. -/
theorem c1_attachment_prompt_drops_feedback :
    (∀ overview nm ds ec, attachmentPrompt overview nm ds none ec =
      attachmentPrompt overview nm ds none none) ∧
    ∀ overview part partObj att s,
      (attachStep overview part partObj att s).prompts =
        s.prompts ++ [attachmentPrompt overview part.name part.description none none] := by
  have hbase : ∀ overview nm ds ec, attachmentPrompt overview nm ds none ec =
      attachmentPrompt overview nm ds none none := by
    intro overview nm ds ec
    simp [attachmentPrompt, truthy]
  refine ⟨hbase, ?_⟩
  intro overview part partObj att s
  cases hx : att.exec s.anchor partObj with
  | threw m d => simp [attachStep, hx, hbase]
  | ran t =>
    by_cases hp : att.qc.passed <;> simp [attachStep, hx, hp, hbase]

/-- Claim C2: commit atomicity of assembly attempts.  For an attempt whose QC
verdict is not passed, or whose sandboxed execution throws, the committed
anchor's children, position, rotation and scale after the attempt equal their
values before it.  (The attempt runs the generated logic only on a clone of
the anchor — in this value semantics, on the anchor value, never destructively
— and the anchor is replaced only in the passed branch.) -/
theorem c2_commit_atomicity (overview : String) (part : ComponentPlan) (partObj : Obj)
    (att : AttachAttempt) (s : LocalAsm)
    (h : att.qc.passed = false ∨ ∃ m d, att.exec s.anchor partObj = .threw m d) :
    (attachStep overview part partObj att s).anchor.children = s.anchor.children ∧
      (attachStep overview part partObj att s).anchor.position = s.anchor.position ∧
      (attachStep overview part partObj att s).anchor.rotation = s.anchor.rotation ∧
      (attachStep overview part partObj att s).anchor.scale = s.anchor.scale := by
  suffices ha : (attachStep overview part partObj att s).anchor = s.anchor by
    rw [ha]; exact ⟨rfl, rfl, rfl, rfl⟩
  cases hx : att.exec s.anchor partObj with
  | threw m d => simp [attachStep, hx]
  | ran t =>
    rcases h with hq | ⟨m, d, he⟩
    · simp [attachStep, hx, hq]
    · rw [hx] at he; cases he

/-- Claim C2 witness: a concrete attempt that executes fine but is rejected by
assembly QC leaves the concrete anchor untouched. -/
theorem c2_commit_atomicity_witness :
    (failAttach.qc.passed = false ∨
        ∃ m d, failAttach.exec demoLocal.anchor demoPartObj = .threw m d) ∧
      ((attachStep "ov" chainB demoPartObj failAttach demoLocal).anchor.children =
          demoLocal.anchor.children ∧
        (attachStep "ov" chainB demoPartObj failAttach demoLocal).anchor.position =
          demoLocal.anchor.position ∧
        (attachStep "ov" chainB demoPartObj failAttach demoLocal).anchor.rotation =
          demoLocal.anchor.rotation ∧
        (attachStep "ov" chainB demoPartObj failAttach demoLocal).anchor.scale =
          demoLocal.anchor.scale) :=
  ⟨Or.inl rfl, c2_commit_atomicity "ov" chainB demoPartObj failAttach demoLocal (Or.inl rfl)⟩

/-! ## Lemmas: snapshot capture restoration -/

theorem capFold_const (center : V3) (cameraDistance : ℚ) (positions : List V3)
    (s1 : StageView) :
    (positions.foldl (fun st offset =>
      { st with
          camPos := vadd center offset
          near := max (1/100 : ℚ) (cameraDistance / 100)
          far := max (1000 : ℚ) (cameraDistance * 10) }) s1).background = s1.background ∧
    (positions.foldl (fun st offset =>
      { st with
          camPos := vadd center offset
          near := max (1/100 : ℚ) (cameraDistance / 100)
          far := max (1000 : ℚ) (cameraDistance * 10) }) s1).gridExists = s1.gridExists ∧
    (positions.foldl (fun st offset =>
      { st with
          camPos := vadd center offset
          near := max (1/100 : ℚ) (cameraDistance / 100)
          far := max (1000 : ℚ) (cameraDistance * 10) }) s1).gridVisible = s1.gridVisible ∧
    (positions.foldl (fun st offset =>
      { st with
          camPos := vadd center offset
          near := max (1/100 : ℚ) (cameraDistance / 100)
          far := max (1000 : ℚ) (cameraDistance * 10) }) s1).target = s1.target := by
  induction positions generalizing s1 with
  | nil => exact ⟨rfl, rfl, rfl, rfl⟩
  | cons p ps ih =>
    simpa using ih { s1 with
      camPos := vadd center p
      near := max (1/100 : ℚ) (cameraDistance / 100)
      far := max (1000 : ℚ) (cameraDistance * 10) }

/-- Claim C10: `captureSnapshots` is non-destructive to the viewer state.  On
an initialized stage (whose camera clipping planes hold their construction
values `near = 0.1`, `far = 1000` — nothing else in the stage ever changes
them), after the capture the camera position, orbit-controls target, near/far
planes, scene background and grid visibility equal their pre-capture values. -/
theorem c10_capture_restores (positions : List V3) (center : V3) (cameraDistance : ℚ)
    (s : StageView) (hnear : s.near = 1/10) (hfar : s.far = 1000) :
    (captureSnapshotsModel positions center cameraDistance s).camPos = s.camPos ∧
      (captureSnapshotsModel positions center cameraDistance s).target = s.target ∧
      (captureSnapshotsModel positions center cameraDistance s).near = s.near ∧
      (captureSnapshotsModel positions center cameraDistance s).far = s.far ∧
      (captureSnapshotsModel positions center cameraDistance s).background = s.background ∧
      (captureSnapshotsModel positions center cameraDistance s).gridVisible = s.gridVisible := by
  have hb := fun s1 => (capFold_const center cameraDistance positions s1).1
  have hge := fun s1 => (capFold_const center cameraDistance positions s1).2.1
  have hgv := fun s1 => (capFold_const center cameraDistance positions s1).2.2.1
  have ht := fun s1 => (capFold_const center cameraDistance positions s1).2.2.2
  simp only [captureSnapshotsModel]
  simp only [hb, hge, hgv, ht]
  by_cases hg : s.gridExists <;> simp [hg, hnear, hfar]

/-- Claim C10 witness: a concrete initialized stage state is restored by a
concrete capture. -/
theorem c10_capture_restores_witness :
    (demoStage.near = 1/10 ∧ demoStage.far = 1000) ∧
      ((captureSnapshotsModel [(1, 1, 1)] (0, 0, 0) 5 demoStage).camPos = demoStage.camPos ∧
        (captureSnapshotsModel [(1, 1, 1)] (0, 0, 0) 5 demoStage).target = demoStage.target ∧
        (captureSnapshotsModel [(1, 1, 1)] (0, 0, 0) 5 demoStage).near = demoStage.near ∧
        (captureSnapshotsModel [(1, 1, 1)] (0, 0, 0) 5 demoStage).far = demoStage.far ∧
        (captureSnapshotsModel [(1, 1, 1)] (0, 0, 0) 5 demoStage).background =
          demoStage.background ∧
        (captureSnapshotsModel [(1, 1, 1)] (0, 0, 0) 5 demoStage).gridVisible =
          demoStage.gridVisible) :=
  ⟨⟨rfl, rfl⟩, c10_capture_restores [(1, 1, 1)] (0, 0, 0) 5 demoStage rfl rfl⟩

/-! ## Lemmas: Component Verification Loop -/

theorem processLoop_stop (oracle : Nat → AttemptOutcome) (art : ComponentArtifact)
    (h : ¬ art.retryCount < 4) : processLoop oracle art = (art, none) := by
  rw [processLoop]
  simp [h]

theorem processLoop_spec (oracle : Nat → AttemptOutcome) (art : ComponentArtifact) :
    art.retryCount ≤ 4 →
    (processLoop oracle art).1.retryCount ≤ 4 ∧
      (processLoop oracle art).1.plan = art.plan ∧
      ((processLoop oracle art).2.isSome → (processLoop oracle art).1.status = .VERIFIED) ∧
      ((processLoop oracle art).2 = none → (processLoop oracle art).1.retryCount = 4) := by
  induction art using processLoop.induct oracle with
  | case1 x h4 msg ho ih =>
    intro _
    rw [processLoop]
    simp only [dif_pos h4, ho]
    obtain ⟨a, b, c, d⟩ := ih (by simp; omega)
    exact ⟨a, by simpa using b, c, d⟩
  | case2 x h4 code msg ho ih =>
    intro _
    rw [processLoop]
    simp only [dif_pos h4, ho]
    obtain ⟨a, b, c, d⟩ := ih (by simp; omega)
    exact ⟨a, by simpa using b, c, d⟩
  | case3 x h4 code obj snaps res ho hp =>
    intro _
    rw [processLoop]
    simp only [dif_pos h4, ho, if_pos hp]
    simp
    omega
  | case4 x h4 code obj snaps res ho hp ih =>
    intro _
    rw [processLoop]
    simp only [dif_pos h4, ho, if_neg hp]
    obtain ⟨a, b, c, d⟩ := ih (by simp; omega)
    exact ⟨a, by simpa using b, c, d⟩
  | case5 x h4 =>
    intro hle
    rw [processLoop_stop oracle x h4]
    exact ⟨hle, rfl, by simp, fun _ => by simp; omega⟩

theorem processLoop_allfail (oracle : Nat → AttemptOutcome) (art : ComponentArtifact) :
    (∀ i, art.retryCount ≤ i → i < 4 → failOut (oracle i)) →
    art.retryCount ≤ 4 → (art.retryCount = 4 → art.status = .FAILED) →
    (processLoop oracle art).1.retryCount = 4 ∧
      (processLoop oracle art).1.status = .FAILED ∧
      (processLoop oracle art).2 = none ∧
      (processLoop oracle art).1.plan = art.plan := by
  induction art using processLoop.induct oracle with
  | case1 x h4 msg ho ih =>
    intro hf _ _
    rw [processLoop]
    simp only [dif_pos h4, ho]
    obtain ⟨a, b, c, d⟩ := ih (fun i hi hi4 => hf i (by simp at hi; omega) hi4)
      (by simp; omega) (fun _ => rfl)
    exact ⟨a, b, c, by simpa using d⟩
  | case2 x h4 code msg ho ih =>
    intro hf _ _
    rw [processLoop]
    simp only [dif_pos h4, ho]
    obtain ⟨a, b, c, d⟩ := ih (fun i hi hi4 => hf i (by simp at hi; omega) hi4)
      (by simp; omega) (fun _ => rfl)
    exact ⟨a, b, c, by simpa using d⟩
  | case3 x h4 code obj snaps res ho hp =>
    intro hf _ _
    have hfo := hf x.retryCount (le_refl _) h4
    rw [ho] at hfo
    simp only [failOut] at hfo
    rw [hfo] at hp
    simp at hp
  | case4 x h4 code obj snaps res ho hp ih =>
    intro hf _ _
    rw [processLoop]
    simp only [dif_pos h4, ho, if_neg hp]
    obtain ⟨a, b, c, d⟩ := ih (fun i hi hi4 => hf i (by simp at hi; omega) hi4)
      (by simp; omega) (fun _ => rfl)
    exact ⟨a, b, c, by simpa using d⟩
  | case5 x h4 =>
    intro _ hle hst
    rw [processLoop_stop oracle x h4]
    have h4' : x.retryCount = 4 := by omega
    exact ⟨h4', hst h4', rfl, rfl⟩

theorem attemptStep_retry_le (oracle : Nat → AttemptOutcome) (art : ComponentArtifact) :
    (attemptStep oracle art).1.retryCount ≤ art.retryCount + 1 := by
  cases ho : oracle art.retryCount with
  | genError msg => simp [attemptStep, ho]
  | execError code msg => simp [attemptStep, ho]
  | qcDone code obj snaps res =>
    by_cases hp : res.passed
    · simp [attemptStep, ho, hp]
    · simp [attemptStep, ho, hp]

/-- Claim C8: retry bound invariant of the Component Verification Loop.
Starting from a `retryCount` within the bound, the loop never takes it past 4;
a single loop iteration increments it by at most 1; and the loop terminates
with the component VERIFIED (on a some-result) or with `processComponent`
throwing the fatal error that aborts the run. -/
theorem c8_retry_bound (oracle : Nat → AttemptOutcome) (art : ComponentArtifact)
    (h : art.retryCount ≤ 4) :
    (processLoop oracle art).1.retryCount ≤ 4 ∧
      (attemptStep oracle art).1.retryCount ≤ art.retryCount + 1 ∧
      ((processLoop oracle art).2.isSome → (processLoop oracle art).1.status = .VERIFIED) ∧
      ((processLoop oracle art).2 = none → ∃ m, processComponent oracle art = .error m) := by
  obtain ⟨h1, _, h3, _⟩ := processLoop_spec oracle art h
  refine ⟨h1, attemptStep_retry_le oracle art, h3, ?_⟩
  intro hn
  rcases hp : processLoop oracle art with ⟨a, o⟩
  rw [hp] at hn
  simp only at hn
  subst hn
  exact ⟨_, by rw [processComponent, hp]⟩

/-- Claim C8 witness: a concrete always-failing oracle run from a fresh
artifact satisfies the hypothesis and the conclusions of `c8_retry_bound`. -/
theorem c8_retry_bound_witness :
    (initArtifact chainA).retryCount ≤ 4 ∧
      ((processLoop failOracle (initArtifact chainA)).1.retryCount ≤ 4 ∧
        (attemptStep failOracle (initArtifact chainA)).1.retryCount ≤
          (initArtifact chainA).retryCount + 1 ∧
        ((processLoop failOracle (initArtifact chainA)).2.isSome →
          (processLoop failOracle (initArtifact chainA)).1.status = .VERIFIED) ∧
        ((processLoop failOracle (initArtifact chainA)).2 = none →
          ∃ m, processComponent failOracle (initArtifact chainA) = .error m)) :=
  ⟨by decide, c8_retry_bound failOracle (initArtifact chainA) (by decide)⟩

/-! ## Lemmas: pipeline orchestration -/

theorem runGo_fail (oracle : String → Nat → AttemptOutcome) (c : ComponentPlan)
    (post : List ComponentPlan) (hfail : ∀ i, i < 4 → failOut (oracle c.id i)) :
    ∀ pre ctx acc,
      (∀ p ∈ pre, (processLoop (oracle p.id) (initArtifact p)).2.isSome) →
      ∃ acc' ctx' msg,
        runComponentsGo oracle ctx acc (pre ++ c :: post) =
          (acc' ++ [((processLoop (oracle c.id) (initArtifact c)).1, ctx', none)], some msg) := by
  intro pre
  induction pre with
  | nil =>
    intro ctx acc _
    obtain ⟨_, _, hnone, _⟩ := processLoop_allfail (oracle c.id) (initArtifact c)
      (fun i _ hi4 => hfail i hi4) (by simp [initArtifact]) (by simp [initArtifact])
    rcases hp : processLoop (oracle c.id) (initArtifact c) with ⟨a, o⟩
    rw [hp] at hnone
    simp only at hnone
    subst hnone
    refine ⟨acc, ctx,
      "Failed to generate stable component " ++ a.plan.name ++ " after maximum retries.", ?_⟩
    rw [List.nil_append]
    simp [runComponentsGo, hp]
  | cons p pre' ih =>
    intro ctx acc hpre
    have hps := hpre p (List.mem_cons_self _ _)
    rcases hp : processLoop (oracle p.id) (initArtifact p) with ⟨a, o⟩
    rw [hp] at hps
    cases o with
    | none => simp at hps
    | some ob =>
      obtain ⟨acc', ctx', msg, heq⟩ := ih (ctx ++ headSnap a.images) (acc ++ [(a, ctx, some ob)])
        (fun q hq => hpre q (List.mem_cons_of_mem _ hq))
      refine ⟨acc', ctx', msg, ?_⟩
      rw [List.cons_append]
      simp only [runComponentsGo, hp]
      exact heq

theorem runPipelineModel_error (plan : BuildPlan) (compOracle : String → Nat → AttemptOutcome)
    (attOracle : String → Nat → AttachAttempt) (rootCenter : V3) (initialSnaps : List String)
    (results : List (ComponentArtifact × List String × Option Obj)) (msg : String)
    (h : runComponents compOracle plan.components = (results, some msg)) :
    runPipelineModel plan compOracle attOracle rootCenter initialSnaps =
      ⟨.ERROR, false, results, none⟩ := by
  simp only [runPipelineModel, h]

theorem runPipelineModel_completed (plan : BuildPlan)
    (compOracle : String → Nat → AttemptOutcome) (attOracle : String → Nat → AttachAttempt)
    (rootCenter : V3) (initialSnaps : List String)
    (results : List (ComponentArtifact × List String × Option Obj))
    (rootComp : ComponentPlan) (rest : List ComponentPlan) (obj0 : Obj)
    (h : runComponents compOracle plan.components = (results, none))
    (hsort : sortComponentsTopologically plan.components = rootComp :: rest)
    (hroot : lookupObj results rootComp.id = some obj0) :
    runPipelineModel plan compOracle attOracle rootCenter initialSnaps =
      ⟨.COMPLETED, true, results,
        some ((rest.foldl (attachPart plan.overview attOracle results)
          ⟨Obj.mk obj0.children (vsub obj0.position rootCenter) obj0.rotation obj0.scale,
            initialSnaps,
            Obj.mk obj0.children (vsub obj0.position rootCenter) obj0.rotation
              obj0.scale⟩).anchor)⟩ := by
  simp only [runPipelineModel, h, hsort, hroot]

/-- Claim C6: component retry exhaustion is fatal.  When a component that the
run reaches (all components before it verified) fails generation, execution or
QC on 4 consecutive attempts, its artifact ends FAILED with `retryCount = 4`,
the Component Verification Loop's error propagates, the run's phase is ERROR,
and the assembly phase is never entered. -/
theorem c6_component_exhaustion_fatal (plan : BuildPlan)
    (compOracle : String → Nat → AttemptOutcome) (attOracle : String → Nat → AttachAttempt)
    (rootCenter : V3) (initialSnaps : List String)
    (pre : List ComponentPlan) (c : ComponentPlan) (post : List ComponentPlan)
    (hplan : plan.components = pre ++ c :: post)
    (hpre : ∀ p ∈ pre, (processLoop (compOracle p.id) (initArtifact p)).2.isSome)
    (hfail : ∀ i, i < 4 → failOut (compOracle c.id i)) :
    (runPipelineModel plan compOracle attOracle rootCenter initialSnaps).phase = .ERROR ∧
      (runPipelineModel plan compOracle attOracle rootCenter
        initialSnaps).assemblyEntered = false ∧
      ∃ entry ∈ (runPipelineModel plan compOracle attOracle rootCenter initialSnaps).results,
        entry.1.plan = c ∧ entry.1.status = .FAILED ∧ entry.1.retryCount = 4 := by
  obtain ⟨acc', ctx', msg, heq⟩ := runGo_fail compOracle c post hfail pre [] [] hpre
  have hrc : runComponents compOracle plan.components =
      (acc' ++ [((processLoop (compOracle c.id) (initArtifact c)).1, ctx', none)], some msg) := by
    rw [runComponents, hplan]
    exact heq
  rw [runPipelineModel_error plan compOracle attOracle rootCenter initialSnaps _ msg hrc]
  obtain ⟨hr4, hstF, _, hplanEq⟩ := processLoop_allfail (compOracle c.id) (initArtifact c)
    (fun i _ hi4 => hfail i hi4) (by simp [initArtifact]) (by simp [initArtifact])
  refine ⟨rfl, rfl,
    ⟨((processLoop (compOracle c.id) (initArtifact c)).1, ctx', none), ?_, ?_, hstF, hr4⟩⟩
  · simp
  · simpa [initArtifact] using hplanEq

/-- Claim C6 witness: a concrete two-component plan whose second component
fails every attempt satisfies the hypotheses and conclusions of
`c6_component_exhaustion_fatal`. -/
theorem c6_component_exhaustion_fatal_witness :
    demoPlan.components = [chainA] ++ chainB :: [] ∧
      (∀ p ∈ [chainA], (processLoop (mixedOracle p.id) (initArtifact p)).2.isSome) ∧
      (∀ i, i < 4 → failOut (mixedOracle chainB.id i)) ∧
      ((runPipelineModel demoPlan mixedOracle failAttachOracle (0, 0, 0) []).phase = .ERROR ∧
        (runPipelineModel demoPlan mixedOracle failAttachOracle (0, 0, 0)
          []).assemblyEntered = false ∧
        ∃ entry ∈ (runPipelineModel demoPlan mixedOracle failAttachOracle (0, 0, 0) []).results,
          entry.1.plan = chainB ∧ entry.1.status = .FAILED ∧ entry.1.retryCount = 4) := by
  have hpre : ∀ p ∈ [chainA], (processLoop (mixedOracle p.id) (initArtifact p)).2.isSome := by
    intro p hp
    rw [List.mem_singleton.mp hp]
    simp [processLoop, mixedOracle, initArtifact, chainA, passQC]
  refine ⟨rfl, hpre, fun i _ => by simp [mixedOracle, failOut, chainB], ?_⟩
  exact c6_component_exhaustion_fatal demoPlan mixedOracle failAttachOracle (0, 0, 0) []
    [chainA] chainB [] rfl hpre (fun i _ => by simp [mixedOracle, failOut, chainB])

theorem runGo_ctx (oracle : String → Nat → AttemptOutcome) :
    ∀ (comps : List ComponentPlan) (ctx : List String)
      (acc : List (ComponentArtifact × List String × Option Obj)),
      ∃ new, (runComponentsGo oracle ctx acc comps).1 = acc ++ new ∧
        (∀ (i : Nat) (hi : i < new.length),
          (new.get ⟨i, hi⟩).2.1 =
            ctx ++ (new.take i).flatMap (fun r => headSnap r.1.images)) ∧
        (∀ (i : Nat), i + 1 < new.length →
          ∀ (hi : i < new.length), (new.get ⟨i, hi⟩).2.2.isSome) := by
  intro comps
  induction comps with
  | nil =>
    intro ctx acc
    exact ⟨[], by simp [runComponentsGo], by simp, by simp⟩
  | cons c cs ih =>
    intro ctx acc
    rcases hp : processLoop (oracle c.id) (initArtifact c) with ⟨a, o⟩
    cases o with
    | some ob =>
      obtain ⟨new', h1, h2, h3⟩ := ih (ctx ++ headSnap a.images) (acc ++ [(a, ctx, some ob)])
      refine ⟨(a, ctx, some ob) :: new', ?_, ?_, ?_⟩
      · simp only [runComponentsGo, hp]
        rw [h1]
        simp
      · intro i hi
        cases i with
        | zero => simp
        | succ k =>
          have hk : k < new'.length := by simpa using hi
          have hctx := h2 k hk
          simp only [List.get_cons_succ, List.take_succ_cons, List.flatMap_cons]
          rw [List.append_assoc] at hctx
          exact hctx
      · intro i hlen hi
        cases i with
        | zero => simp
        | succ k =>
          have := h3 k (by simpa using hlen) (by simpa using hi)
          simpa using this
    | none =>
      refine ⟨[(a, ctx, none)], ?_, ?_, ?_⟩
      · simp [runComponentsGo, hp]
      · intro i hi
        cases i with
        | zero => simp
        | succ k => simp at hi
      · intro i hlen _
        simp at hlen

theorem flatMap_headSnap_eq_map (l : List (ComponentArtifact × List String × Option Obj))
    (h : ∀ r ∈ l, r.1.images ≠ []) :
    l.flatMap (fun r => headSnap r.1.images) = l.map (fun r => r.1.images.headD "") := by
  induction l with
  | nil => rfl
  | cons x xs ih =>
    have hx := h x (List.mem_cons_self _ _)
    cases him : x.1.images with
    | nil => exact absurd him hx
    | cons a as =>
      rw [List.flatMap_cons, List.map_cons, ih (fun r hr => h r (List.mem_cons_of_mem _ hr)),
        him]
      rfl

/-- Claim C9: context accumulation order.  In the component generation loop,
the context-image list supplied to component `n`'s generation requests equals
the ordered list of first snapshots of the components verified strictly
before it (all components before `n` are verified — a failure aborts the loop
before later components are processed).  The hypothesis `hne` reflects the
render-stage contract that a verified component's stored snapshot set is the
nonempty 8-view set. -/
theorem c9_context_accumulation_order (oracle : String → Nat → AttemptOutcome)
    (comps : List ComponentPlan) (n : Nat)
    (hn : n < (runComponents oracle comps).1.length)
    (hne : ∀ r ∈ (runComponents oracle comps).1, r.2.2.isSome → r.1.images ≠ []) :
    ((runComponents oracle comps).1.get ⟨n, hn⟩).2.1 =
      ((runComponents oracle comps).1.take n).map (fun r => r.1.images.headD "") ∧
      ∀ (j : Nat) (hj : j < (runComponents oracle comps).1.length), j < n →
        ((runComponents oracle comps).1.get ⟨j, hj⟩).2.2.isSome := by
  obtain ⟨new, h1, h2, h3⟩ := runGo_ctx oracle comps [] []
  have hres : (runComponents oracle comps).1 = new := by
    rw [runComponents, h1]
    simp
  revert hn hne
  rw [hres]
  intro hn hne
  have hver : ∀ (j : Nat) (hj : j < new.length), j < n → (new.get ⟨j, hj⟩).2.2.isSome :=
    fun j hj hjn => h3 j (by omega) hj
  refine ⟨?_, hver⟩
  rw [h2 n hn]
  simp only [List.nil_append]
  apply flatMap_headSnap_eq_map
  intro r hr
  obtain ⟨i, hi, hgi⟩ := List.getElem_of_mem hr
  have hilen : i < new.length := by
    simp only [List.length_take] at hi
    omega
  have hin : i < n := by
    simp only [List.length_take] at hi
    omega
  rw [List.getElem_take] at hgi
  have hsome := hver i hilen hin
  have hrmem : r ∈ new := by
    rw [← hgi]
    exact List.getElem_mem _
  refine hne r hrmem ?_
  have : new.get ⟨i, hilen⟩ = r := hgi
  rwa [this] at hsome

/-- Claim C9 witness: with a pass-first-time oracle over the concrete
two-component plan, the second component's generation context is exactly the
first snapshot of the first verified component. -/
theorem c9_context_accumulation_order_witness :
    1 < (runComponents goodCompOracle demoChain).1.length ∧
      (∀ r ∈ (runComponents goodCompOracle demoChain).1, r.2.2.isSome → r.1.images ≠ []) ∧
      ((runComponents goodCompOracle demoChain).1.getD 1 (initArtifact chainA, [], none)).2.1 =
        ((runComponents goodCompOracle demoChain).1.take 1).map
          (fun r => r.1.images.headD "") := by
  have hn : 1 < (runComponents goodCompOracle demoChain).1.length := by
    simp [runComponents, runComponentsGo, processLoop, goodCompOracle, initArtifact,
      demoChain, chainA, chainB, passQC, headSnap]
  have hne : ∀ r ∈ (runComponents goodCompOracle demoChain).1,
      r.2.2.isSome → r.1.images ≠ [] := by
    simp [runComponents, runComponentsGo, processLoop, goodCompOracle, initArtifact,
      demoChain, chainA, chainB, passQC, headSnap]
  obtain ⟨hctx, _⟩ := c9_context_accumulation_order goodCompOracle demoChain 1 hn hne
  refine ⟨hn, hne, ?_⟩
  rw [List.getD_eq_getElem _ _ hn]
  exact hctx

/-! ## Lemmas: Incremental Assembly Loop -/

theorem attachStep_fail (overview : String) (part : ComponentPlan) (partObj : Obj)
    (att : AttachAttempt) (s : LocalAsm) (h : attachFails att) :
    (attachStep overview part partObj att s).anchor = s.anchor ∧
      (attachStep overview part partObj att s).snaps = s.snaps ∧
      (attachStep overview part partObj att s).attached = s.attached ∧
      (attachStep overview part partObj att s).retries = s.retries + 1 := by
  cases hx : att.exec s.anchor partObj with
  | threw m d => simp [attachStep, hx]
  | ran t =>
    rcases h with hq | hall
    · simp [attachStep, hx, hq]
    · obtain ⟨m, d, he⟩ := hall s.anchor partObj
      rw [hx] at he
      cases he

theorem attachLoop_allfail (overview : String) (part : ComponentPlan) (partObj : Obj)
    (atts : Nat → AttachAttempt) (s : LocalAsm) :
    (∀ i, s.retries ≤ i → i < 4 → attachFails (atts i)) → s.attached = false →
    (attachLoop overview part partObj atts s).anchor = s.anchor ∧
      (attachLoop overview part partObj atts s).snaps = s.snaps ∧
      (attachLoop overview part partObj atts s).attached = false := by
  induction s using attachLoop.induct overview part partObj atts with
  | case1 x hx ih =>
    intro hf ha
    obtain ⟨ha1, hs1, hat1, hr1⟩ := attachStep_fail overview part partObj (atts x.retries) x
      (hf x.retries (le_refl _) hx.2)
    rw [attachLoop, dif_pos hx]
    obtain ⟨ga, gs, gat⟩ := ih (fun i hi hi4 => hf i (by omega) hi4) (by rw [hat1, ha])
    exact ⟨by rw [ga, ha1], by rw [gs, hs1], gat⟩
  | case2 x hx =>
    intro _ ha
    rw [attachLoop, dif_neg hx]
    exact ⟨rfl, rfl, ha⟩

theorem attachLoop_aligned (overview : String) (part : ComponentPlan) (partObj : Obj)
    (atts : Nat → AttachAttempt) (s : LocalAsm) :
    (s.attached = true → s.stage = s.anchor) →
    ((attachLoop overview part partObj atts s).attached = true →
      (attachLoop overview part partObj atts s).stage =
        (attachLoop overview part partObj atts s).anchor) := by
  induction s using attachLoop.induct overview part partObj atts with
  | case1 x hx ih =>
    intro _
    rw [attachLoop, dif_pos hx]
    apply ih
    cases hs : (atts x.retries).exec x.anchor partObj with
    | threw m d => simp [attachStep, hs, hx.1]
    | ran t =>
      by_cases hp : (atts x.retries).qc.passed
      · intro _
        simp only [attachStep, hs, if_pos hp]
        exact (Obj.eta t).symm
      · simp [attachStep, hs, hp, hx.1]
  | case2 x hx =>
    intro h
    rw [attachLoop, dif_neg hx]
    exact h

theorem attachPart_skip (overview : String) (attOracle : String → Nat → AttachAttempt)
    (results : List (ComponentArtifact × List String × Option Obj)) (part : ComponentPlan)
    (g : AsmGlobal) (hfail : ∀ i, i < 4 → attachFails (attOracle part.id i))
    (hg : g.stage = g.anchor) :
    attachPart overview attOracle results g part = g := by
  cases hl : lookupArt results part.id with
  | none => simp [attachPart, hl]
  | some pr =>
    rcases pr with ⟨art, obj?⟩
    by_cases hv : art.status = .VERIFIED
    · cases obj? with
      | none => simp [attachPart, hl, hv]
      | some obj =>
        obtain ⟨ha, hs, hat⟩ := attachLoop_allfail overview part obj (attOracle part.id)
          ⟨g.anchor, g.snaps, g.stage, false, "", 0, []⟩
          (fun i _ hi4 => hfail i hi4) rfl
        simp only [attachPart, hl, if_pos hv, hat, Bool.false_eq_true, if_false, ha, hs]
        obtain ⟨ga, gs2, gst⟩ := g
        simp only at hg ⊢
        rw [hg]
    · simp [attachPart, hl, hv]

theorem attachPart_inv (overview : String) (attOracle : String → Nat → AttachAttempt)
    (results : List (ComponentArtifact × List String × Option Obj)) (part : ComponentPlan)
    (g : AsmGlobal) (hg : g.stage = g.anchor) :
    (attachPart overview attOracle results g part).stage =
      (attachPart overview attOracle results g part).anchor := by
  cases hl : lookupArt results part.id with
  | none => simpa [attachPart, hl] using hg
  | some pr =>
    rcases pr with ⟨art, obj?⟩
    by_cases hv : art.status = .VERIFIED
    · cases obj? with
      | none => simpa [attachPart, hl, hv] using hg
      | some obj =>
        have hal := attachLoop_aligned overview part obj (attOracle part.id)
          ⟨g.anchor, g.snaps, g.stage, false, "", 0, []⟩ (by simp)
        by_cases hat : (attachLoop overview part obj (attOracle part.id)
            ⟨g.anchor, g.snaps, g.stage, false, "", 0, []⟩).attached
        · simp only [attachPart, hl, if_pos hv, if_pos hat]
          exact hal hat
        · simp only [attachPart, hl, if_pos hv, if_neg hat]
    · simpa [attachPart, hl, hv] using hg

theorem foldl_attachPart_skip (overview : String) (attOracle : String → Nat → AttachAttempt)
    (results : List (ComponentArtifact × List String × Option Obj)) (p : ComponentPlan)
    (hfail : ∀ i, i < 4 → attachFails (attOracle p.id i)) :
    ∀ (pre post : List ComponentPlan) (g : AsmGlobal), g.stage = g.anchor →
      (pre ++ p :: post).foldl (attachPart overview attOracle results) g =
        (pre ++ post).foldl (attachPart overview attOracle results) g := by
  intro pre
  induction pre with
  | nil =>
    intro post g hg
    simp only [List.nil_append, List.foldl_cons]
    rw [attachPart_skip overview attOracle results p g hfail hg]
  | cons q pre' ih =>
    intro post g hg
    simp only [List.cons_append, List.foldl_cons]
    exact ih post (attachPart overview attOracle results g q)
      (attachPart_inv overview attOracle results q g hg)

/-- Claim C7: attachment retry exhaustion is non-fatal.  When every component
verified and some part `p` of the assembly sequence fails all 4 attachment
attempts, the run still terminates with phase COMPLETED; processing `p` leaves
the committed anchor, the running snapshots and the stage (restored to the
committed anchor) unchanged; and the final assembly equals the one produced by
the remaining parts alone — the skipped part contributes nothing. -/
theorem c7_attachment_exhaustion_nonfatal (plan : BuildPlan)
    (compOracle : String → Nat → AttemptOutcome) (attOracle : String → Nat → AttachAttempt)
    (rootCenter : V3) (initialSnaps : List String)
    (results : List (ComponentArtifact × List String × Option Obj))
    (rootComp p : ComponentPlan) (pre post : List ComponentPlan) (obj0 : Obj)
    (hrc : runComponents compOracle plan.components = (results, none))
    (hsort : sortComponentsTopologically plan.components = rootComp :: (pre ++ p :: post))
    (hroot : lookupObj results rootComp.id = some obj0)
    (hfail : ∀ i, i < 4 → attachFails (attOracle p.id i)) :
    (runPipelineModel plan compOracle attOracle rootCenter initialSnaps).phase = .COMPLETED ∧
      (runPipelineModel plan compOracle attOracle rootCenter
        initialSnaps).assemblyEntered = true ∧
      (∀ g : AsmGlobal, g.stage = g.anchor →
        attachPart plan.overview attOracle results g p = g) ∧
      (runPipelineModel plan compOracle attOracle rootCenter initialSnaps).finalAssembly =
        some (((pre ++ post).foldl (attachPart plan.overview attOracle results)
          ⟨Obj.mk obj0.children (vsub obj0.position rootCenter) obj0.rotation obj0.scale,
            initialSnaps,
            Obj.mk obj0.children (vsub obj0.position rootCenter) obj0.rotation
              obj0.scale⟩).anchor) := by
  rw [runPipelineModel_completed plan compOracle attOracle rootCenter initialSnaps results
    rootComp (pre ++ p :: post) obj0 hrc hsort hroot]
  refine ⟨rfl, rfl,
    fun g hg => attachPart_skip plan.overview attOracle results p g hfail hg, ?_⟩
  simp only
  rw [foldl_attachPart_skip plan.overview attOracle results p hfail pre post _ rfl]

/-- Claim C7 witness: a concrete run (both components verify; attachment of
the wheel part fails all four attempts) reaches COMPLETED with the part
skipped. -/
theorem c7_attachment_exhaustion_nonfatal_witness :
    runComponents goodCompOracle demoPlan.components =
        ((runComponents goodCompOracle demoPlan.components).1, none) ∧
      sortComponentsTopologically demoPlan.components = chainA :: ([] ++ chainB :: []) ∧
      lookupObj (runComponents goodCompOracle demoPlan.components).1 chainA.id =
        some demoObj ∧
      (∀ i, i < 4 → attachFails (failAttachOracle chainB.id i)) ∧
      ((runPipelineModel demoPlan goodCompOracle failAttachOracle (0, 0, 0) []).phase =
          .COMPLETED ∧
        (runPipelineModel demoPlan goodCompOracle failAttachOracle (0, 0, 0)
          []).assemblyEntered = true ∧
        ∀ g : AsmGlobal, g.stage = g.anchor →
          attachPart demoPlan.overview failAttachOracle
            (runComponents goodCompOracle demoPlan.components).1 g chainB = g) := by
  have h2' : (runComponents goodCompOracle demoPlan.components).2 = none := by
    simp [runComponents, runComponentsGo, processLoop, goodCompOracle, initArtifact,
      demoPlan, chainA, chainB, passQC, headSnap]
  have hrc : runComponents goodCompOracle demoPlan.components =
      ((runComponents goodCompOracle demoPlan.components).1, none) := by
    rw [← h2']
  have hsort : sortComponentsTopologically demoPlan.components =
      chainA :: ([] ++ chainB :: []) := by
    simp [sortComponentsTopologically, demoPlan, chainA, chainB, univIds, foldVisit, visit]
  have hroot : lookupObj (runComponents goodCompOracle demoPlan.components).1 chainA.id =
      some demoObj := by
    simp [lookupObj, lookupArt, runComponents, runComponentsGo, processLoop, goodCompOracle,
      initArtifact, demoPlan, chainA, chainB, passQC, headSnap]
  have hfail : ∀ i, i < 4 → attachFails (failAttachOracle chainB.id i) :=
    fun _ _ => Or.inl rfl
  obtain ⟨hc1, hc2, hc3, _⟩ := c7_attachment_exhaustion_nonfatal demoPlan goodCompOracle
    failAttachOracle (0, 0, 0) [] (runComponents goodCompOracle demoPlan.components).1
    chainA chainB [] [] demoObj hrc hsort hroot hfail
  exact ⟨hrc, hsort, hroot, hfail, hc1, hc2, hc3⟩
